import Mathlib

/-!
# Verification of the cloudsqltail pipeline

Shallow embedding of the cloudsqltail program (cmd/cloudsqltail/main.go and
messages/messages.go, built with Go 1.16.4 per the Dockerfile).

The embedding models:
* Go time.Time values as instants (seconds/nanoseconds since the Unix epoch)
  together with the fixed zone offset recorded when the value was parsed,
  with Time.Before and the Format call used at flush time;
* messages.ParsedMessage and the encoding/json decoding performed by
  parseMessage (missing fields are zero-filled, type mismatches and malformed
  timestamps make Unmarshal return an error);
* the per-tick body of flushMessages (sort by timestamp with Go 1.16
  sort.Slice, then line emission) and the buffer reset;
* the mutex-serialized traces of append (parseMessage) and flush operations
  on the shared globalMessages slice;
* parseFlags.

Go's sort.Slice is embedded as the actual Go 1.16 algorithm
(quickSort with shell/insertion pass for short ranges, median-of-three
pivoting with duplicate protection, and a heapSort fallback), because the
spec makes claims about the ordering behavior of exactly that call.
-/

deriving instance DecidableEq for Except

namespace CloudSQLTail

/-! ## Time model

Go time.Time, restricted to what the program observes: the absolute instant
(`sec` seconds and `nsec` extra nanoseconds since the Unix epoch) plus the
fixed zone offset `off` (seconds east of UTC) attached when the value was
produced by parsing; RFC3339 values ending in Z carry offset 0.
-/

structure GoTime where
  sec : Int
  nsec : Nat
  off : Int
  deriving DecidableEq, Repr, Inhabited

/-- The zero time.Time: January 1, year 1, 00:00:00 UTC.
62135596800 is the number of seconds from 0001-01-01 to 1970-01-01. -/
def zeroGoTime : GoTime := ⟨-62135596800, 0, 0⟩

/-- time.Time.Before: instant comparison,
t.sec < u.sec or (t.sec == u.sec and t.nsec < u.nsec). -/
def timeBefore (t u : GoTime) : Bool :=
  decide (t.sec < u.sec) || (decide (t.sec = u.sec) && decide (t.nsec < u.nsec))

/-- Civil date from a day count (day 0 = 1970-01-01), the Gregorian-calendar
conversion performed by Go's absDate; returns (year, month, day). -/
def civilFromDays (z : Int) : Int × Nat × Nat :=
  let z' : Int := z + 719468
  let era : Int := z'.ediv 146097
  let doe : Nat := (z' - era * 146097).toNat
  let yoe : Nat := (doe - doe / 1460 + doe / 36524 - doe / 146096) / 365
  let y : Int := (yoe : Int) + era * 400
  let doy : Nat := doe - (365 * yoe + yoe / 4 - yoe / 100)
  let mp : Nat := (5 * doy + 2) / 153
  let d : Nat := doy - (153 * mp + 2) / 5 + 1
  let m : Nat := if mp < 10 then mp + 3 else mp - 9
  (if m ≤ 2 then y + 1 else y, m, d)

/-- Day count (day 0 = 1970-01-01) from a civil Gregorian date. -/
def daysFromCivil (y : Int) (m d : Nat) : Int :=
  let y' : Int := if m ≤ 2 then y - 1 else y
  let era : Int := y'.ediv 400
  let yoe : Nat := (y' - era * 400).toNat
  let doy : Nat := (153 * (if 2 < m then m - 3 else m + 9) + 2) / 5 + d - 1
  let doe : Nat := yoe * 365 + yoe / 4 - yoe / 100 + doy
  era * 146097 + (doe : Int) - 719468

/-- Zero-pad the decimal representation of n to width w
(Go's appendInt with a width). -/
def padNum (w : Nat) (n : Nat) : String :=
  let s := toString n
  if s.length < w then String.mk (List.replicate (w - s.length) '0') ++ s else s

/-- Drop trailing '0' characters. -/
def dropTrailZeros (s : String) : String :=
  String.mk ((s.data.reverse.dropWhile (fun c => c = '0')).reverse)

/-- The ".999999999" layout element: at most nine fractional digits with
trailing zeros removed, and nothing at all (not even the dot) when the
nanosecond part is zero. -/
def fmtFrac9 (nsec : Nat) : String :=
  if nsec = 0 then "" else "." ++ dropTrailZeros (padNum 9 nsec)

/-- t.Format("2006-01-02 15:04:05.999999999 UTC"), the flusher's timestamp
rendering (main.go line 195). Go formats the wall clock in the time's own
location (sec + off) and the trailing "UTC" is literal text in the layout,
printed whatever the actual zone is. -/
def goTimeFormatPG (t : GoTime) : String :=
  let loc : Int := t.sec + t.off
  let days : Int := loc.ediv 86400
  let sod : Nat := (loc.emod 86400).toNat
  let ymd := civilFromDays days
  let y : Int := ymd.1
  let yStr : String := if y < 0 then "-" ++ padNum 4 (-y).toNat else padNum 4 y.toNat
  yStr ++ "-" ++ padNum 2 ymd.2.1 ++ "-" ++ padNum 2 ymd.2.2 ++ " " ++
    padNum 2 (sod / 3600) ++ ":" ++ padNum 2 (sod / 60 % 60) ++ ":" ++
    padNum 2 (sod % 60) ++ fmtFrac9 t.nsec ++ " UTC"

/-! ## Data model: messages.ParsedMessage -/

/-- messages.ParsedMessage: the relevant details from a parsed Cloud
Subscription message (messages/messages.go lines 8-11).
Go strings are byte strings; they are modelled as Lean strings, which is
observationally equivalent for everything this program does with them
(emptiness test, first-byte comparison against the ASCII character '[',
concatenation and output). -/
structure ParsedMessage where
  TextPayload : String
  Timestamp : GoTime
  deriving DecidableEq, Repr, Inhabited

/-! ## Flush-time emission (flushMessages, main.go lines 189-201)

The loop body over one record. The source reads

    if msg.TextPayload != "" {
      if msg.TextPayload[0] == '[' {
        timestamp := ...Format("2006-01-02 15:04:05.999999999 UTC")
        fmt.Printf("[%s]: %s\n", timestamp, ...TextPayload)
      } else {
        fmt.Println(...TextPayload)
      }
    }

The byte access TextPayload[0] is partial in Go (it panics out of range), so
it is embedded through Option; the error case of the Except is the would-be
panic. Comparing the first byte with '[' equals comparing the first
character, because '[' is ASCII and a non-ASCII leading byte can never
equal it. Each emitted line is one list element (the trailing newline of
Printf/Println is the line separator). -/
def emitRecordE (pm : ParsedMessage) : Except Unit (List String) :=
  if pm.TextPayload = "" then .ok []
  else
    match pm.TextPayload.data.head? with
    | none => .error ()
    | some c =>
      if c = '[' then
        .ok ["[" ++ goTimeFormatPG pm.Timestamp ++ "]: " ++ pm.TextPayload]
      else
        .ok [pm.TextPayload]

/-- Emission over a whole (already sorted) batch, in order (a panic at any
record would abort the whole loop). -/
def emitAllE : List ParsedMessage → Except Unit (List String)
  | [] => .ok []
  | pm :: rest =>
    match emitRecordE pm with
    | .error e => .error e
    | .ok l =>
      match emitAllE rest with
      | .error e => .error e
      | .ok ls => .ok (l ++ ls)

/-! ## Inbound payloads and json.Unmarshal (parseMessage, main.go lines 137-152)

A delivered payload is a byte string. Its JSON well-formedness is decided by
the encoding/json grammar, which is external to this repository; a payload is
therefore modelled by the result of that lexing phase: `none` for input that
is not syntactically valid JSON, `some v` for the parsed document. String
scalars hold the decoded (unescaped) text. Object fields are kept in document
order; Go processes them in order, later duplicates overwriting earlier ones.
Numbers keep their source text (the program never uses numeric values; a
number in a relevant field is only ever a type mismatch). -/
inductive JVal where
  | null : JVal
  | bool (b : Bool) : JVal
  | num (text : String) : JVal
  | str (s : String) : JVal
  | arr (elems : List JVal) : JVal
  | obj (fields : List (String × JVal)) : JVal

/-! ### time.Time.UnmarshalJSON / time.Parse with the RFC3339 layout

Model of Go 1.16 time.Parse applied to layout "2006-01-02T15:04:05Z07:00":
four year digits, fixed two-digit month/day/minute/second, one- or two-digit
hour, literal separators, an optional fraction introduced by '.' and
followed by one or more digits, and either 'Z' or a +hh:mm / -hh:mm offset.
Inline range checks: month 1-12, hour < 24, minute < 60, second < 60; after
parsing, the day is validated against the month (leap years included). The
zone offset digits are not range-checked by Go. The input here is the text
of the JSON string (the layout's surrounding quote characters consume the
JSON quotes). -/

/-- Go isDigit. -/
def isDig (c : Char) : Bool := decide ('0' ≤ c) && decide (c ≤ '9')

def digVal (c : Char) : Nat := c.toNat - '0'.toNat

/-- Exactly two digit characters (getnum with fixed width). -/
def getnum2 : List Char → Option (Nat × List Char)
  | c1 :: c2 :: rest =>
    if isDig c1 && isDig c2 then some (digVal c1 * 10 + digVal c2, rest) else none
  | _ => none

/-- One or two digit characters (getnum without fixed width, layout "15"). -/
def getnum12 : List Char → Option (Nat × List Char)
  | c1 :: c2 :: rest =>
    if isDig c1 then
      if isDig c2 then some (digVal c1 * 10 + digVal c2, rest)
      else some (digVal c1, c2 :: rest)
    else none
  | [c1] => if isDig c1 then some (digVal c1, []) else none
  | [] => none

/-- A literal layout character. -/
def expectChar (c : Char) : List Char → Option (List Char)
  | d :: rest => if d = c then some rest else none
  | [] => none

/-- Go isLeap. -/
def isLeapYear (y : Int) : Bool :=
  decide (y % 4 = 0) && (decide (y % 100 ≠ 0) || decide (y % 400 = 0))

/-- Go daysIn(month, year). -/
def daysInMonth (m : Nat) (y : Int) : Nat :=
  if m = 2 then (if isLeapYear y then 29 else 28)
  else if m = 4 ∨ m = 6 ∨ m = 9 ∨ m = 11 then 30
  else 31

/-- Go parseNanoseconds on "." followed by the given digits (all fractional
digits of the value are consumed). Mirrors the source: the digit run is read
as an integer, rejected at or above 1e9, and scaled by 10^(9 - digits) only
when there are at most nine digits. -/
def parseNanos (digs : List Char) : Option Nat :=
  let v : Nat := digs.foldl (fun acc c => acc * 10 + digVal c) 0
  if v ≥ 1000000000 then none
  else if digs.length ≤ 9 then some (v * 10 ^ (9 - digs.length)) else some v

/-- The optional fractional-second special case after the seconds chunk:
consumed only when a '.' directly followed by a digit is present. Returns
the nanoseconds and the rest of the input. -/
def parseFracOpt (cs : List Char) : Option (Nat × List Char) :=
  match cs with
  | '.' :: c1 :: rest =>
    if isDig c1 then
      let digs := c1 :: rest.takeWhile isDig
      match parseNanos digs with
      | some ns => some (ns, rest.dropWhile isDig)
      | none => none
    else some (0, cs)
  | _ => some (0, cs)

/-- The "Z07:00" chunk: 'Z' (offset 0), or sign, two digits, ':', two digits.
Returns the offset in seconds east of UTC. -/
def parseZone (cs : List Char) : Option (Int × List Char) :=
  match cs with
  | 'Z' :: rest => some (0, rest)
  | sign :: h1 :: h2 :: ':' :: m1 :: m2 :: rest =>
    if isDig h1 && isDig h2 && isDig m1 && isDig m2 then
      let hr : Nat := digVal h1 * 10 + digVal h2
      let mm : Nat := digVal m1 * 10 + digVal m2
      let off : Int := ((hr * 60 + mm) * 60 : Nat)
      if sign = '+' then some (off, rest)
      else if sign = '-' then some (-off, rest)
      else none
    else none
  | _ => none

/-- time.Parse of an RFC3339 date-time (the content of the JSON string).
Produces the instant and the fixed zone offset, or `none` on any parse or
range error. -/
def parseRFC3339 (s : String) : Option GoTime := do
  let cs := s.data
  -- stdLongYear: first char must be a digit, then atoi of four chars.
  match cs with
  | y1 :: y2 :: y3 :: y4 :: rest =>
    if isDig y1 && isDig y2 && isDig y3 && isDig y4 then
      let year : Nat := ((digVal y1 * 10 + digVal y2) * 10 + digVal y3) * 10 + digVal y4
      let rest ← expectChar '-' rest
      let (month, rest) ← getnum2 rest
      if month = 0 ∨ 12 < month then none else
      let rest ← expectChar '-' rest
      let (day, rest) ← getnum2 rest
      let rest ← expectChar 'T' rest
      let (hour, rest) ← getnum12 rest
      if 24 ≤ hour then none else
      let rest ← expectChar ':' rest
      let (minute, rest) ← getnum2 rest
      if 60 ≤ minute then none else
      let rest ← expectChar ':' rest
      let (second, rest) ← getnum2 rest
      if 60 ≤ second then none else
      let (nsec, rest) ← parseFracOpt rest
      let (off, rest) ← parseZone rest
      match rest with
      | [] =>
        if day = 0 ∨ daysInMonth month year < day then none
        else
          some ⟨daysFromCivil year month day * 86400 +
                  (hour * 3600 + minute * 60 + second : Nat) - off, nsec, off⟩
      | _ => none
    else none
  | _ => none

/-! ### json.Unmarshal into messages.ParsedMessage

Go's Unmarshal of a JSON document into the two-field struct:
* a non-object document (other than null) is a type mismatch: error;
* null leaves the struct untouched (zero values), no error;
* object fields are walked in order; unknown names are ignored; a field
  named textPayload must be a JSON string (null is a no-op), anything else
  is a type mismatch; a field named timestamp is passed to
  time.Time.UnmarshalJSON, which accepts null as a no-op and otherwise
  requires a JSON string holding a valid RFC3339 date-time;
* any error anywhere makes Unmarshal return non-nil, and parseMessage then
  drops the payload; missing fields simply keep their zero values.
The intermediate state is (text, time, failed). -/
def decodeField (st : String × GoTime × Bool) (kv : String × JVal) :
    String × GoTime × Bool :=
  let (txt, ts, bad) := st
  if kv.1 = "textPayload" then
    match kv.2 with
    | .str s => (s, ts, bad)
    | .null => (txt, ts, bad)
    | _ => (txt, ts, true)
  else if kv.1 = "timestamp" then
    match kv.2 with
    | .str s =>
      match parseRFC3339 s with
      | some t => (txt, t, bad)
      | none => (txt, ts, true)
    | .null => (txt, ts, bad)
    | _ => (txt, ts, true)
  else st

/-- json.Unmarshal(data, &pm) for a well-formed document. -/
def decodePM (v : JVal) : Except Unit ParsedMessage :=
  match v with
  | .null => .ok ⟨"", zeroGoTime⟩
  | .obj fields =>
    let st := fields.foldl decodeField ("", zeroGoTime, false)
    if st.2.2 then .error () else .ok ⟨st.1, st.2.1⟩
  | _ => .error ()

/-- parseMessage (main.go lines 137-152): decode the payload, drop it
silently on error, otherwise append the ParsedMessage to the messages
slice (the mutex-guarded section is the append itself). The payload is
`none` when the delivered bytes are not well-formed JSON. -/
def parseMessage (buf : List ParsedMessage) (data : Option JVal) :
    List ParsedMessage :=
  match data with
  | none => buf
  | some v =>
    match decodePM v with
    | .error _ => buf
    | .ok pm => buf ++ [pm]

/-! ## The receive callback (main.go lines 68-74)

    err = sub.Receive(ctx, func(ctx context.Context, msg *pubsub.Message) {
      parseMessage(msg.Data)
      msg.Ack()
    })

The callback body is a sequence of two steps; the acknowledgement is
unconditional and strictly after parseMessage returns. -/
inductive HandlerStep where
  | parse (data : Option JVal) : HandlerStep
  | ack : HandlerStep

/-- The steps the callback performs for one delivered payload, in order. -/
def receiveCallbackSteps (data : Option JVal) : List HandlerStep :=
  [.parse data, .ack]

/-- The callback's effect on the shared buffer together with whether the
message was acknowledged. -/
def handleDelivery (buf : List ParsedMessage) (data : Option JVal) :
    List ParsedMessage × Bool :=
  (parseMessage buf data, true)

/-! ## parseFlags (main.go lines 82-117)

Inputs are the parsed flag values: -project, -subscription,
-recv-routines (Go int), -flush-interval (time.Duration, an int64 count of
nanoseconds). The result is either an error message or success together
with the warnings printed on standard output (writing a warning is assumed
to succeed, as the spec assumes for all output). -/
def second : Int := 1000000000

def parseFlags (project subscription : String) (recvRoutines : Int)
    (flushInterval : Int) : Except String (List String) :=
  if project = "" then .error "must provide -project"
  else if subscription = "" then .error "must provide -subscription"
  else
    let warn1 : List String :=
      if recvRoutines < 1 then ["WARNING: cannot have this many routines"] else []
    if flushInterval < 1 then .error "flush internal must be > 0"
    else if flushInterval < second then
      .ok (warn1 ++ ["WARNING: small flush interval"])
    else .ok warn1

/-- The observable start of main (main.go lines 43-59): if parseFlags fails,
the error goes to standard error and the process exits with code 1 without
any subscription attempt; otherwise it proceeds to subscribe. -/
inductive StartOutcome where
  | exitCode1BeforeSubscribe (stderrMsg : String) : StartOutcome
  | subscribeAttempted (warnings : List String) : StartOutcome
  deriving DecidableEq

def mainStart (project subscription : String) (recvRoutines : Int)
    (flushInterval : Int) : StartOutcome :=
  match parseFlags project subscription recvRoutines flushInterval with
  | .error e => .exitCode1BeforeSubscribe e
  | .ok warns => .subscribeAttempted warns

/-! ## Go 1.16 sort.Slice

flushMessages sorts with sort.Slice (main.go lines 184-186), whose
documented contract explicitly does NOT guarantee stability. Because the
spec claims ordering and stability properties of this call, the actual
(deterministic) Go 1.16 algorithm from src/sort/sort.go is embedded:
quickSort with a depth budget of 2*ceil(lg(n+1)), a shell pass (gap 6)
followed by insertionSort for ranges of at most 12, median-of-three pivot
selection with Tukey ninther above 40, a duplicate-protection pass, and
heapSort once the depth budget is exhausted.

Loops are embedded as structurally recursive functions over an explicit
iteration budget (each loop's budget argument is at least its iteration
count at every call site, so the budget never runs out); all other state is
passed explicitly. Go's Swap panics out of range; the algorithm only ever
swaps in range, so the embedded swap keeps the list unchanged in that
impossible case. -/

section GoSort

variable {α : Type} [Inhabited α]

/-- data[i] (Go slice read). -/
def elemD (l : List α) (i : Nat) : α := l.getD i default

/-- data.Swap(i, j). -/
def swapL (l : List α) (i j : Nat) : List α :=
  if i < l.length ∧ j < l.length then (l.set i (elemD l j)).set j (elemD l i)
  else l

variable (less : α → α → Bool)

/-- Inner loop of insertionSort: for ; j > a && Less(j, j-1); j-- Swap(j, j-1). -/
def insInner (a : Nat) : Nat → List α → List α
  | 0, l => l
  | j + 1, l =>
    if a < j + 1 ∧ less (elemD l (j + 1)) (elemD l j) = true then
      insInner a j (swapL l (j + 1) j)
    else l

/-- Outer loop of insertionSort: for i := a+1; i < b; i++. -/
def insOuter (a b : Nat) : Nat → Nat → List α → List α
  | 0, _, l => l
  | fuel + 1, i, l =>
    if i < b then insOuter a b fuel (i + 1) (insInner less a i l) else l

/-- insertionSort(data, a, b). -/
def insertionSortGo (l : List α) (a b : Nat) : List α :=
  insOuter less a b (b - a) (a + 1) l

/-- The gap-6 shell pass of the short-range branch of quickSort:
for i := a+6; i < b; i++ if Less(i, i-6) Swap(i, i-6). -/
def shellLoop (b : Nat) : Nat → Nat → List α → List α
  | 0, _, l => l
  | fuel + 1, i, l =>
    if i < b then
      shellLoop b fuel (i + 1)
        (if less (elemD l i) (elemD l (i - 6)) = true then swapL l i (i - 6) else l)
    else l

/-- The range-at-most-12 branch of quickSort: shell pass then insertionSort
(only when the range has more than one element). -/
def smallSortGo (l : List α) (a b : Nat) : List α :=
  if b - a > 1 then insertionSortGo less (shellLoop less b (b - a) (a + 6) l) a b
  else l

/-- The descent loop of siftDown(data, lo, hi, first). -/
def siftLoop (first hi : Nat) : Nat → Nat → List α → List α
  | 0, _, l => l
  | fuel + 1, root, l =>
    let child := 2 * root + 1
    if hi ≤ child then l
    else
      let child :=
        if child + 1 < hi ∧ less (elemD l (first + child)) (elemD l (first + child + 1)) = true
        then child + 1 else child
      if less (elemD l (first + root)) (elemD l (first + child)) = false then l
      else siftLoop first hi fuel child (swapL l (first + root) (first + child))

/-- siftDown(data, lo, hi, first). -/
def siftDownGo (l : List α) (lo hi first : Nat) : List α :=
  siftLoop less first hi (hi + 1) lo l

/-- Heap construction: for i := (hi-1)/2; i >= 0; i-- siftDown(i, hi, first);
the argument k counts the remaining iterations, processing root k-1 next. -/
def heapBuild (first hi : Nat) : Nat → List α → List α
  | 0, l => l
  | k + 1, l => heapBuild first hi k (siftDownGo less l k hi first)

/-- Pop phase: for i := hi-1; i >= 0; i-- { Swap(first, first+i);
siftDown(lo, i, first) }. -/
def heapPop (first : Nat) : Nat → List α → List α
  | 0, l => l
  | k + 1, l => heapPop first k (siftDownGo less (swapL l first (first + k)) 0 k first)

/-- heapSort(data, a, b). -/
def heapSortGo (l : List α) (a b : Nat) : List α :=
  heapPop less a (b - a) (heapBuild less a (b - a) ((b - a - 1) / 2 + 1) l)

/-- medianOfThree(data, m1, m0, m2). -/
def medianOfThreeGo (l : List α) (m1 m0 m2 : Nat) : List α :=
  let l1 := if less (elemD l m1) (elemD l m0) = true then swapL l m1 m0 else l
  if less (elemD l1 m2) (elemD l1 m1) = true then
    let l2 := swapL l1 m2 m1
    if less (elemD l2 m1) (elemD l2 m0) = true then swapL l2 m1 m0 else l2
  else l1

/-- for ; a < c && Less(a, pivot); a++ (also the second loop of the
protect pass, with c standing for b). -/
def advA (l : List α) (c pivot : Nat) : Nat → Nat → Nat
  | 0, a => a
  | fuel + 1, a =>
    if a < c ∧ less (elemD l a) (elemD l pivot) = true then
      advA l c pivot fuel (a + 1)
    else a

/-- for ; b < c && !Less(pivot, b); b++ . -/
def advB (l : List α) (c pivot : Nat) : Nat → Nat → Nat
  | 0, b => b
  | fuel + 1, b =>
    if b < c ∧ less (elemD l pivot) (elemD l b) = false then
      advB l c pivot fuel (b + 1)
    else b

/-- for ; b < c && Less(pivot, c-1); c-- . -/
def advC (l : List α) (b pivot : Nat) : Nat → Nat → Nat
  | 0, c => c
  | fuel + 1, c =>
    if b < c ∧ less (elemD l pivot) (elemD l (c - 1)) = true then
      advC l b pivot fuel (c - 1)
    else c

/-- The main partition loop of doPivot: advance b, retreat c, stop when they
meet, otherwise Swap(b, c-1); b++; c--. -/
def partLoop (pivot : Nat) : Nat → List α → Nat → Nat → List α × Nat × Nat
  | 0, l, b, c => (l, b, c)
  | fuel + 1, l, b, c =>
    let b' := advB less l c pivot c b
    let c' := advC less l b' pivot c c
    if c' ≤ b' then (l, b', c')
    else partLoop pivot fuel (swapL l b' (c' - 1)) (b' + 1) (c' - 1)

/-- First loop of the protect pass: for ; a < b && !Less(b-1, pivot); b-- . -/
def retreatB (l : List α) (a pivot : Nat) : Nat → Nat → Nat
  | 0, b => b
  | fuel + 1, b =>
    if a < b ∧ less (elemD l (b - 1)) (elemD l pivot) = false then
      retreatB l a pivot fuel (b - 1)
    else b

/-- The protect pass against many duplicates: retreat b over elements equal
to the pivot, advance a over smaller ones, stop when they meet, otherwise
Swap(a, b-1); a++; b--. Returns (data, a, b). -/
def protLoop (pivot : Nat) : Nat → List α → Nat → Nat → List α × Nat × Nat
  | 0, l, a, b => (l, a, b)
  | fuel + 1, l, a, b =>
    let b' := retreatB less l a pivot b b
    let a' := advA less l b' pivot b' a
    if b' ≤ a' then (l, a', b')
    else protLoop pivot fuel (swapL l a' (b' - 1)) (a' + 1) (b' - 1)

/-- Pivot preparation: the Tukey ninther for ranges above 40 followed by
medianOfThree(lo, m, hi-1), leaving the chosen pivot at index lo. -/
def pivotPrep (l : List α) (lo hi m : Nat) : List α :=
  let l0 :=
    if hi - lo > 40 then
      let s := (hi - lo) / 8
      let la := medianOfThreeGo less l lo (lo + s) (lo + 2 * s)
      let lb := medianOfThreeGo less la m (m - s) (m + s)
      medianOfThreeGo less lb (hi - 1) (hi - 1 - s) (hi - 1 - 2 * s)
    else l
  medianOfThreeGo less l0 lo m (hi - 1)

/-- First duplicate probe: if data[hi-1] is not above the pivot it equals
it; Swap(c, hi-1), c++, one hit. -/
def dupsProbe1 (l2 : List α) (lo hi c1 : Nat) : List α × Nat × Nat :=
  if less (elemD l2 lo) (elemD l2 (hi - 1)) = false then
    (swapL l2 c1 (hi - 1), c1 + 1, 1)
  else (l2, c1, 0)

/-- Second duplicate probe: if data[b-1] is not below the pivot it equals
it; b--, one hit. -/
def dupsProbe2 (l3 : List α) (lo b1 : Nat) : Nat × Nat :=
  if less (elemD l3 (b1 - 1)) (elemD l3 lo) = false then (b1 - 1, 1) else (b1, 0)

/-- Third duplicate probe: if data[m] is not below the pivot it equals it;
Swap(m, b-1), b--, one hit. -/
def dupsProbe3 (l3 : List α) (lo m b2 : Nat) : List α × Nat × Nat :=
  if less (elemD l3 m) (elemD l3 lo) = false then
    (swapL l3 m (b2 - 1), b2 - 1, 1)
  else (l3, b2, 0)

/-- The duplicate test of doPivot: when the right segment is suspiciously
small, probe hi-1, b-1 and m for equality to the pivot (each probe adjusts
the segment bounds) and request the protect pass when at least two probes
hit. Returns (data, b, c, protect). -/
def dupsCheck (l2 : List α) (lo hi m b1 c1 : Nat) : List α × Nat × Nat × Bool :=
  let protect0 := hi - c1 < 5
  if ¬protect0 ∧ hi - c1 < (hi - lo) / 4 then
    let r1 := dupsProbe1 less l2 lo hi c1
    let r2 := dupsProbe2 less r1.1 lo b1
    let r3 := dupsProbe3 less r1.1 lo m r2.1
    (r3.1, r3.2.1, r1.2.1, decide (r1.2.2 + r2.2 + r3.2.2 > 1))
  else (l2, b1, c1, protect0)

/-- doPivot(data, lo, hi) = (data, midlo, midhi). -/
def doPivotGo (l : List α) (lo hi : Nat) : List α × Nat × Nat :=
  let m := (lo + hi) / 2
  let l1 := pivotPrep less l lo hi m
  let pivot := lo
  let a := advA less l1 (hi - 1) pivot (hi - 1) (lo + 1)
  let plc := partLoop less pivot hi l1 a (hi - 1)
  let dres := dupsCheck less plc.1 lo hi m plc.2.1 plc.2.2
  let l4 := dres.1
  let b3 := dres.2.1
  let c3 := dres.2.2.1
  let pres :=
    if dres.2.2.2 = true then
      let r := protLoop less pivot hi l4 a b3
      (r.1, r.2.2)
    else (l4, b3)
  (swapL pres.1 pivot (pres.2 - 1), pres.2 - 1, c3)

/-- quickSort(data, a, b, maxDepth). The source's loop
"for b-a > 12 { ...; a = mhi (or b = mlo) }" is the tail-recursive call on
the remaining range with the already-decremented depth. -/
def quickSortGo : Nat → List α → Nat → Nat → List α
  | 0, l, a, b =>
    if b - a > 12 then heapSortGo less l a b else smallSortGo less l a b
  | d + 1, l, a, b =>
    if b - a > 12 then
      let p := doPivotGo less l a b
      let mlo := p.2.1
      let mhi := p.2.2
      if mlo - a < b - mhi then
        quickSortGo d (quickSortGo d p.1 a mlo) mhi b
      else
        quickSortGo d (quickSortGo d p.1 mhi b) a mlo
    else smallSortGo less l a b

/-- maxDepth(n) = 2*ceil(lg(n+1)): the loop
for i := n; i > 0; i >>= 1 { depth++ }. -/
def depthLoop : Nat → Nat → Nat
  | 0, _ => 0
  | fuel + 1, i => if i > 0 then depthLoop fuel (i / 2) + 1 else 0

def maxDepthGo (n : Nat) : Nat := 2 * depthLoop n n

/-- sort.Slice(x, less): quickSort over the whole slice with the depth
budget maxDepth(len). -/
def sortSliceGo (l : List α) : List α :=
  quickSortGo less (maxDepthGo l.length) l 0 l.length

end GoSort

/-- The range [a, b) of l is sorted: no later element is strictly less than
an earlier one. -/
def SortedSeg {α : Type} [Inhabited α] (less : α → α → Bool) (l : List α)
    (a b : Nat) : Prop :=
  ∀ i j, a ≤ i → i < j → j < b → less (elemD l j) (elemD l i) = false

/-- Node j of the implicit max-heap stored at offset first over [0, hi) is
not below either of its children. -/
def HeapChildrenOk {α : Type} [Inhabited α] (less : α → α → Bool) (l : List α)
    (first hi j : Nat) : Prop :=
  ∀ c, (c = 2 * j + 1 ∨ c = 2 * j + 2) → c < hi →
    less (elemD l (first + j)) (elemD l (first + c)) = false

/-- The comparison is asymmetric (a strict order requirement satisfied by
Time.Before). -/
def Asymm {α : Type} (less : α → α → Bool) : Prop :=
  ∀ x y, less x y = true → less y x = false

/-- Transitivity of the complement of the comparison (satisfied by any
total preorder's strict part, in particular Time.Before). -/
def NegTrans {α : Type} (less : α → α → Bool) : Prop :=
  ∀ x y z, less x y = false → less y z = false → less x z = false

/-- The comparison closure at main.go lines 184-186:
func(i, j int) bool { return globalMessages[i].Timestamp.Before(globalMessages[j].Timestamp) }. -/
def pmLess (x y : ParsedMessage) : Bool := timeBefore x.Timestamp y.Timestamp

/-- The sort.Slice call of flushMessages. -/
def sortMessages (l : List ParsedMessage) : List ParsedMessage :=
  sortSliceGo pmLess l

/-! ## One tick of flushMessages (main.go lines 178-209) -/

/-- The body executed under the mutex on each tick: skip when no messages
are buffered; otherwise sort by timestamp, print every record, and replace
the slice by make([]ParsedMessage, 0, len(globalMessages)) — an empty
buffer whose capacity is the drained batch's length. Result: the printed
lines, the new buffer, and the capacity handed to make (none when the tick
skipped); the error case is the would-be index panic of the emission. -/
def flushTickE (buf : List ParsedMessage) :
    Except Unit (List String × List ParsedMessage × Option Nat) :=
  if buf.length > 0 then
    match emitAllE (sortMessages buf) with
    | .error e => .error e
    | .ok lines => .ok (lines, [], some buf.length)
  else .ok ([], buf, none)

/-! ## Serialized traces of the shared buffer

parseMessage appends under mx.Lock (lines 146-151) and the whole flush tick
body runs under the same lock (lines 178-209), so the shared slice is only
ever accessed inside one of these two critical sections. Every concurrent
execution of the N receive workers and the flusher is therefore equivalent
to a sequence of the two atomic operations below, and the concurrency
claims are claims over all such sequences. -/

inductive Op where
  | append (pm : ParsedMessage) : Op
  | flush : Op

structure SysState where
  buf : List ParsedMessage
  batches : List (List ParsedMessage)

/-- One critical section: an append from parseMessage, or one flush tick
(recording the drained, sorted batch when the buffer was non-empty). -/
def step (s : SysState) : Op → SysState
  | .append pm => ⟨s.buf ++ [pm], s.batches⟩
  | .flush =>
    if s.buf.length > 0 then ⟨[], s.batches ++ [sortMessages s.buf]⟩ else s

def runOps (s : SysState) : List Op → SysState
  | [] => s
  | op :: ops => runOps (step s op) ops

/-- Process start: empty buffer, nothing flushed. -/
def startState : SysState := ⟨[], []⟩

/-- How many times this record was appended in the trace. -/
def appendCount (pm : ParsedMessage) : List Op → Nat
  | [] => 0
  | .append q :: ops => (if q = pm then 1 else 0) + appendCount pm ops
  | .flush :: ops => appendCount pm ops

/-- Appends since the last flush tick (the expected pending-buffer size). -/
def appendsSinceDrain (n : Nat) : List Op → Nat
  | [] => n
  | .append _ :: ops => appendsSinceDrain (n + 1) ops
  | .flush :: ops => appendsSinceDrain 0 ops

/-! # Lemmas

## The sort permutes the slice

Every mutation the sorting algorithm performs is a Swap, so each phase
produces a permutation of its input. -/

section PermLemmas

variable {α : Type} [Inhabited α] (less : α → α → Bool)

theorem headSwap_perm (x : α) :
    ∀ (t : List α) (j : Nat), j < t.length →
      (t.getD j default :: t.set j x).Perm (x :: t) := by
  intro t
  induction t with
  | nil => intro j hj; simp at hj
  | cons y t ih =>
    intro j hj
    cases j with
    | zero => simpa using List.Perm.swap x y t
    | succ j =>
      simp only [List.getD_cons_succ, List.set_cons_succ]
      refine (List.Perm.swap y (t.getD j default) (t.set j x)).trans ?_
      refine (List.Perm.cons y (ih j (by simpa using hj))).trans ?_
      exact List.Perm.swap x y t

theorem swapCore_perm :
    ∀ (l : List α) (i j : Nat), i < l.length → j < l.length →
      ((l.set i (elemD l j)).set j (elemD l i)).Perm l := by
  intro l
  induction l with
  | nil => intro i j hi; simp at hi
  | cons x t ih =>
    intro i j hi hj
    cases i with
    | zero =>
      cases j with
      | zero => simp [elemD]
      | succ j =>
        simp only [elemD, List.getD_cons_succ, List.getD_cons_zero,
          List.set_cons_zero, List.set_cons_succ]
        exact headSwap_perm x t j (by simpa using hj)
    | succ i =>
      cases j with
      | zero =>
        simp only [elemD, List.getD_cons_succ, List.getD_cons_zero,
          List.set_cons_zero, List.set_cons_succ]
        exact headSwap_perm x t i (by simpa using hi)
      | succ j =>
        simp only [elemD, List.getD_cons_succ, List.set_cons_succ]
        exact List.Perm.cons x (ih i j (by simpa using hi) (by simpa using hj))

theorem swapL_perm (l : List α) (i j : Nat) : (swapL l i j).Perm l := by
  unfold swapL
  split
  case isTrue h => exact swapCore_perm l i j h.1 h.2
  case isFalse => exact List.Perm.refl l

theorem insInner_perm (a : Nat) :
    ∀ (j : Nat) (l : List α), (insInner less a j l).Perm l := by
  intro j
  induction j with
  | zero => intro l; exact List.Perm.refl l
  | succ j ih =>
    intro l
    unfold insInner
    split
    · exact (ih _).trans (swapL_perm _ _ _)
    · exact List.Perm.refl l

theorem insOuter_perm (a b : Nat) :
    ∀ (fuel i : Nat) (l : List α), (insOuter less a b fuel i l).Perm l := by
  intro fuel
  induction fuel with
  | zero => intro i l; exact List.Perm.refl l
  | succ fuel ih =>
    intro i l
    unfold insOuter
    split
    · exact (ih _ _).trans (insInner_perm less a i l)
    · exact List.Perm.refl l

theorem insertionSortGo_perm (l : List α) (a b : Nat) :
    (insertionSortGo less l a b).Perm l :=
  insOuter_perm less a b (b - a) (a + 1) l

theorem shellLoop_perm (b : Nat) :
    ∀ (fuel i : Nat) (l : List α), (shellLoop less b fuel i l).Perm l := by
  intro fuel
  induction fuel with
  | zero => intro i l; exact List.Perm.refl l
  | succ fuel ih =>
    intro i l
    unfold shellLoop
    split
    · refine (ih _ _).trans ?_
      split
      · exact swapL_perm _ _ _
      · exact List.Perm.refl l
    · exact List.Perm.refl l

theorem smallSortGo_perm (l : List α) (a b : Nat) :
    (smallSortGo less l a b).Perm l := by
  unfold smallSortGo
  split
  · exact (insertionSortGo_perm less _ a b).trans (shellLoop_perm less b (b - a) (a + 6) l)
  · exact List.Perm.refl l

theorem siftLoop_perm (first hi : Nat) :
    ∀ (fuel root : Nat) (l : List α), (siftLoop less first hi fuel root l).Perm l := by
  intro fuel
  induction fuel with
  | zero => intro root l; exact List.Perm.refl l
  | succ fuel ih =>
    intro root l
    unfold siftLoop
    dsimp only
    split
    · exact List.Perm.refl l
    · split <;> split <;>
        first
          | exact List.Perm.refl l
          | exact (ih _ _).trans (swapL_perm _ _ _)

theorem siftDownGo_perm (l : List α) (lo hi first : Nat) :
    (siftDownGo less l lo hi first).Perm l :=
  siftLoop_perm less first hi (hi + 1) lo l

theorem heapBuild_perm (first hi : Nat) :
    ∀ (k : Nat) (l : List α), (heapBuild less first hi k l).Perm l := by
  intro k
  induction k with
  | zero => intro l; exact List.Perm.refl l
  | succ k ih =>
    intro l
    exact (ih _).trans (siftDownGo_perm less l k hi first)

theorem heapPop_perm (first : Nat) :
    ∀ (k : Nat) (l : List α), (heapPop less first k l).Perm l := by
  intro k
  induction k with
  | zero => intro l; exact List.Perm.refl l
  | succ k ih =>
    intro l
    exact (ih _).trans ((siftDownGo_perm less _ 0 k first).trans (swapL_perm _ _ _))

theorem heapSortGo_perm (l : List α) (a b : Nat) :
    (heapSortGo less l a b).Perm l :=
  (heapPop_perm less a (b - a) _).trans (heapBuild_perm less a (b - a) _ l)

theorem medianOfThreeGo_perm (l : List α) (m1 m0 m2 : Nat) :
    (medianOfThreeGo less l m1 m0 m2).Perm l := by
  unfold medianOfThreeGo
  dsimp only
  split <;> (try split) <;> (try split) <;>
    first
      | exact List.Perm.refl _
      | exact swapL_perm _ _ _
      | exact (swapL_perm _ _ _).trans (swapL_perm _ _ _)
      | exact (swapL_perm _ _ _).trans ((swapL_perm _ _ _).trans (swapL_perm _ _ _))

theorem partLoop_perm (pivot : Nat) :
    ∀ (fuel : Nat) (l : List α) (b c : Nat),
      (partLoop less pivot fuel l b c).1.Perm l := by
  intro fuel
  induction fuel with
  | zero => intro l b c; exact List.Perm.refl l
  | succ fuel ih =>
    intro l b c
    unfold partLoop
    dsimp only
    split
    · exact List.Perm.refl l
    · exact (ih _ _ _).trans (swapL_perm _ _ _)

theorem protLoop_perm (pivot : Nat) :
    ∀ (fuel : Nat) (l : List α) (a b : Nat),
      (protLoop less pivot fuel l a b).1.Perm l := by
  intro fuel
  induction fuel with
  | zero => intro l a b; exact List.Perm.refl l
  | succ fuel ih =>
    intro l a b
    unfold protLoop
    dsimp only
    split
    · exact List.Perm.refl l
    · exact (ih _ _ _).trans (swapL_perm _ _ _)

theorem pivotPrep_perm (l : List α) (lo hi m : Nat) :
    (pivotPrep less l lo hi m).Perm l := by
  unfold pivotPrep
  dsimp only
  refine (medianOfThreeGo_perm less _ lo m (hi - 1)).trans ?_
  split
  · exact (medianOfThreeGo_perm less _ _ _ _).trans
      ((medianOfThreeGo_perm less _ _ _ _).trans (medianOfThreeGo_perm less _ _ _ _))
  · exact List.Perm.refl l

theorem dupsProbe1_perm (l2 : List α) (lo hi c1 : Nat) :
    (dupsProbe1 less l2 lo hi c1).1.Perm l2 := by
  unfold dupsProbe1
  split
  · exact swapL_perm _ _ _
  · exact List.Perm.refl _

theorem dupsProbe3_perm (l3 : List α) (lo m b2 : Nat) :
    (dupsProbe3 less l3 lo m b2).1.Perm l3 := by
  unfold dupsProbe3
  split
  · exact swapL_perm _ _ _
  · exact List.Perm.refl _

theorem dupsCheck_perm (l2 : List α) (lo hi m b1 c1 : Nat) :
    (dupsCheck less l2 lo hi m b1 c1).1.Perm l2 := by
  unfold dupsCheck
  dsimp only
  split
  · exact (dupsProbe3_perm less _ lo m _).trans (dupsProbe1_perm less l2 lo hi c1)
  · exact List.Perm.refl _

theorem doPivotGo_perm (l : List α) (lo hi : Nat) :
    (doPivotGo less l lo hi).1.Perm l := by
  unfold doPivotGo
  dsimp only
  refine (swapL_perm _ _ _).trans ?_
  split
  · exact (protLoop_perm less lo _ _ _ _).trans
      ((dupsCheck_perm less _ lo hi _ _ _).trans
        ((partLoop_perm less lo _ _ _ _).trans (pivotPrep_perm less l lo hi _)))
  · exact (dupsCheck_perm less _ lo hi _ _ _).trans
      ((partLoop_perm less lo _ _ _ _).trans (pivotPrep_perm less l lo hi _))

theorem quickSortGo_perm :
    ∀ (d : Nat) (l : List α) (a b : Nat), (quickSortGo less d l a b).Perm l := by
  intro d
  induction d with
  | zero =>
    intro l a b
    unfold quickSortGo
    split
    · exact heapSortGo_perm less l a b
    · exact smallSortGo_perm less l a b
  | succ d ih =>
    intro l a b
    unfold quickSortGo
    split
    · dsimp only
      split
      · exact (ih _ _ _).trans ((ih _ _ _).trans (doPivotGo_perm less l a b))
      · exact (ih _ _ _).trans ((ih _ _ _).trans (doPivotGo_perm less l a b))
    · exact smallSortGo_perm less l a b

theorem sortSliceGo_perm (l : List α) : (sortSliceGo less l).Perm l :=
  quickSortGo_perm less (maxDepthGo l.length) l 0 l.length

end PermLemmas

theorem sortMessages_perm (l : List ParsedMessage) : (sortMessages l).Perm l :=
  sortSliceGo_perm pmLess l

theorem sortMessages_length (l : List ParsedMessage) :
    (sortMessages l).length = l.length :=
  (sortMessages_perm l).length_eq

theorem sortMessages_count (l : List ParsedMessage) (pm : ParsedMessage) :
    (sortMessages l).count pm = l.count pm :=
  (sortMessages_perm l).count_eq pm

/-! ## Emission never hits the out-of-range branch -/

theorem emitRecordE_isOk (pm : ParsedMessage) :
    ∃ lines, emitRecordE pm = .ok lines := by
  unfold emitRecordE
  split
  · exact ⟨[], rfl⟩
  case isFalse h =>
    cases hd : pm.TextPayload.data with
    | nil =>
      exfalso
      apply h
      have hmk := congrArg String.mk hd
      simpa using hmk
    | cons c cs =>
      simp only [hd, List.head?_cons]
      split
      · exact ⟨_, rfl⟩
      · exact ⟨_, rfl⟩

theorem emitAllE_isOk (l : List ParsedMessage) :
    ∃ lines, emitAllE l = .ok lines := by
  induction l with
  | nil => exact ⟨[], rfl⟩
  | cons pm rest ih =>
    obtain ⟨l1, h1⟩ := emitRecordE_isOk pm
    obtain ⟨l2, h2⟩ := ih
    exact ⟨l1 ++ l2, by rw [emitAllE, h1, h2]⟩

theorem flushTickE_ok (buf : List ParsedMessage) :
    ∃ lines, flushTickE buf =
      .ok (lines, [], if 0 < buf.length then some buf.length else none) := by
  unfold flushTickE
  split
  case isTrue h =>
    obtain ⟨lines, hl⟩ := emitAllE_isOk (sortMessages buf)
    exact ⟨lines, by simp [hl, h]⟩
  case isFalse h =>
    have hnil : buf = [] := List.length_eq_zero.mp (by omega)
    exact ⟨[], by simp [hnil]⟩

/-! ## Trace lemmas for the shared buffer -/

theorem runOps_count (pm : ParsedMessage) :
    ∀ (ops : List Op) (s : SysState),
      (runOps s ops).batches.flatten.count pm + (runOps s ops).buf.count pm =
        s.batches.flatten.count pm + s.buf.count pm + appendCount pm ops := by
  intro ops
  induction ops with
  | nil => intro s; simp [runOps, appendCount]
  | cons op ops ih =>
    intro s
    show (runOps (step s op) ops).batches.flatten.count pm +
        (runOps (step s op) ops).buf.count pm = _
    rw [ih (step s op)]
    cases op with
    | append q =>
      simp only [step, appendCount, List.count_append]
      by_cases hq : q = pm <;> simp [hq, List.count_cons] <;> omega
    | flush =>
      by_cases hb : s.buf.length > 0
      · simp only [step, if_pos hb, appendCount, List.flatten_append, List.count_append,
          List.flatten_cons, List.flatten_nil, List.append_nil, List.count_nil,
          sortMessages_count]
        omega
      · simp [step, hb, appendCount]

theorem runOps_buf_len :
    ∀ (ops : List Op) (s : SysState),
      (runOps s ops).buf.length = appendsSinceDrain s.buf.length ops := by
  intro ops
  induction ops with
  | nil => intro s; simp [runOps, appendsSinceDrain]
  | cons op ops ih =>
    intro s
    show (runOps (step s op) ops).buf.length = _
    rw [ih (step s op)]
    cases op with
    | append q => simp [step, appendsSinceDrain]
    | flush =>
      by_cases hb : s.buf.length > 0
      · simp [step, hb, appendsSinceDrain]
      · have h0 : s.buf.length = 0 := by omega
        simp [step, hb, appendsSinceDrain, h0]

/-! ## Sortedness of the embedded sort: element and segment infrastructure -/

section SortInfra

variable {α : Type} [Inhabited α]

theorem elemD_eq_getElem (l : List α) (i : Nat) (h : i < l.length) :
    elemD l i = l[i] := by
  simp [elemD, List.getD_eq_getElem?_getD, List.getElem?_eq_getElem h]

theorem elemD_set_self (l : List α) (i : Nat) (v : α) (h : i < l.length) :
    elemD (l.set i v) i = v := by
  rw [elemD_eq_getElem _ _ (by simpa using h)]
  simp [List.getElem_set_self]

theorem elemD_set_ne (l : List α) (i k : Nat) (v : α) (hik : i ≠ k) :
    elemD (l.set i v) k = elemD l k := by
  by_cases hk : k < l.length
  · rw [elemD_eq_getElem _ _ (by simpa using hk), elemD_eq_getElem _ _ hk]
    exact List.getElem_set_ne hik _
  · have h1 : l.length ≤ k := by omega
    simp [elemD, List.getD_eq_getElem?_getD, List.getElem?_eq_none h1,
      List.getElem?_eq_none (show (l.set i v).length ≤ k by simpa using h1)]

theorem swapL_length (l : List α) (i j : Nat) :
    (swapL l i j).length = l.length := by
  unfold swapL
  split <;> simp

theorem elemD_swapL_left (l : List α) (i j : Nat) (hi : i < l.length)
    (hj : j < l.length) : elemD (swapL l i j) i = elemD l j := by
  unfold swapL
  rw [if_pos ⟨hi, hj⟩]
  by_cases hij : j = i
  · subst hij
    rw [elemD_set_self _ _ _ (by simpa using hi)]
  · rw [elemD_set_ne _ _ _ _ hij, elemD_set_self _ _ _ hi]

theorem elemD_swapL_right (l : List α) (i j : Nat) (hi : i < l.length)
    (hj : j < l.length) : elemD (swapL l i j) j = elemD l i := by
  unfold swapL
  rw [if_pos ⟨hi, hj⟩]
  rw [elemD_set_self _ _ _ (by simpa using hj)]

theorem elemD_swapL_other (l : List α) (i j k : Nat) (hki : k ≠ i)
    (hkj : k ≠ j) : elemD (swapL l i j) k = elemD l k := by
  unfold swapL
  split
  · rw [elemD_set_ne _ _ _ _ (fun h => hkj h.symm),
      elemD_set_ne _ _ _ _ (fun h => hki h.symm)]
  · rfl

theorem take_eq_of_elemD_eq (l l' : List α) (a : Nat)
    (hlen : l'.length = l.length)
    (h : ∀ k, k < a → elemD l' k = elemD l k) : l'.take a = l.take a := by
  apply List.ext_getElem (by simp [hlen])
  intro i h1 h2
  simp only [List.getElem_take]
  have hi' : i < l'.length := by simp at h1; omega
  have hi : i < l.length := by simp at h2; omega
  rw [← elemD_eq_getElem _ _ hi', ← elemD_eq_getElem _ _ hi]
  exact h i (by simp at h1; omega)

theorem drop_eq_of_elemD_eq (l l' : List α) (a : Nat)
    (hlen : l'.length = l.length)
    (h : ∀ k, a ≤ k → elemD l' k = elemD l k) : l'.drop a = l.drop a := by
  apply List.ext_getElem (by simp [hlen])
  intro i h1 h2
  rw [List.getElem_drop, List.getElem_drop]
  have hi' : a + i < l'.length := by simp at h1; omega
  have hi : a + i < l.length := by simp at h2; omega
  rw [← elemD_eq_getElem _ _ hi', ← elemD_eq_getElem _ _ hi]
  exact h (a + i) (by omega)

theorem seg_decomp (m : List α) (a b : Nat) (hab : a ≤ b)
    (hm : b ≤ m.length) :
    m = m.take a ++ ((m.drop a).take (b - a) ++ m.drop b) := by
  have h1 : (m.drop a).take (b - a) ++ (m.drop a).drop (b - a) = m.drop a :=
    List.take_append_drop _ _
  have h2 : (m.drop a).drop (b - a) = m.drop b := by
    rw [List.drop_drop]
    congr 1
    omega
  rw [h2] at h1
  rw [h1, List.take_append_drop]

theorem segPerm_of (l l' : List α) (a b : Nat) (hab : a ≤ b)
    (hb : b ≤ l.length) (hperm : l'.Perm l)
    (hframe : ∀ k, k < a ∨ b ≤ k → elemD l' k = elemD l k) :
    ((l'.drop a).take (b - a)).Perm ((l.drop a).take (b - a)) := by
  have hlen := hperm.length_eq
  have hb' : b ≤ l'.length := by omega
  have htake : l'.take a = l.take a :=
    take_eq_of_elemD_eq l l' a hlen (fun k hk => hframe k (Or.inl hk))
  have hdropb : l'.drop b = l.drop b :=
    drop_eq_of_elemD_eq l l' b hlen (fun k hk => hframe k (Or.inr hk))
  have key : (l.take a ++ ((l'.drop a).take (b - a) ++ l.drop b)).Perm
      (l.take a ++ ((l.drop a).take (b - a) ++ l.drop b)) := by
    have e1 : l.take a ++ ((l'.drop a).take (b - a) ++ l.drop b) = l' := by
      rw [← htake, ← hdropb]
      exact (seg_decomp l' a b hab hb').symm
    have e2 : l.take a ++ ((l.drop a).take (b - a) ++ l.drop b) = l :=
      (seg_decomp l a b hab hb).symm
    rw [e1, e2]
    exact hperm
  have k1 := (List.perm_append_left_iff _).mp key
  exact (List.perm_append_right_iff _).mp k1

theorem elemD_mem_seg (l : List α) (a b k : Nat) (hak : a ≤ k) (hkb : k < b)
    (hb : b ≤ l.length) : elemD l k ∈ (l.drop a).take (b - a) := by
  have hk : k < l.length := by omega
  have hseg : k - a < ((l.drop a).take (b - a)).length := by
    simp [List.length_take, List.length_drop]
    omega
  have : ((l.drop a).take (b - a))[k - a] = elemD l k := by
    rw [elemD_eq_getElem _ _ hk, List.getElem_take, List.getElem_drop]
    congr 1
    omega
  rw [← this]
  exact List.getElem_mem hseg

theorem seg_mem_elemD (l : List α) (a b : Nat) (hb : b ≤ l.length) (x : α)
    (hx : x ∈ (l.drop a).take (b - a)) :
    ∃ k, a ≤ k ∧ k < b ∧ elemD l k = x := by
  obtain ⟨i, hi, hgi⟩ := List.getElem_of_mem hx
  have hib : i < b - a := by
    simp [List.length_take, List.length_drop] at hi
    omega
  refine ⟨a + i, by omega, by omega, ?_⟩
  have hk : a + i < l.length := by omega
  rw [elemD_eq_getElem _ _ hk, ← hgi]
  rw [List.getElem_take, List.getElem_drop]

/-- Transport a pointwise property of a segment across any permutation that
fixes everything outside the segment. -/
theorem segPres (l l' : List α) (a b : Nat) (hab : a ≤ b) (hb : b ≤ l.length)
    (hperm : l'.Perm l)
    (hframe : ∀ k, k < a ∨ b ≤ k → elemD l' k = elemD l k) (P : α → Prop)
    (hP : ∀ k, a ≤ k → k < b → P (elemD l k)) :
    ∀ k, a ≤ k → k < b → P (elemD l' k) := by
  intro k hak hkb
  have hsp := segPerm_of l l' a b hab hb hperm hframe
  have hb' : b ≤ l'.length := by rw [hperm.length_eq]; exact hb
  have hmem : elemD l' k ∈ (l'.drop a).take (b - a) :=
    elemD_mem_seg l' a b k hak hkb hb'
  have hmem2 : elemD l' k ∈ (l.drop a).take (b - a) := hsp.subset hmem
  obtain ⟨m, ham, hmb, hm⟩ := seg_mem_elemD l a b hb _ hmem2
  rw [← hm]
  exact hP m ham hmb

end SortInfra

/-! ## Specifications of the pointer-advance loops of doPivot -/

section AdvanceLoops

variable {α : Type} [Inhabited α] (less : α → α → Bool) (l : List α)

theorem advA_ge (c pivot : Nat) :
    ∀ fuel a, a ≤ advA less l c pivot fuel a := by
  intro fuel
  induction fuel with
  | zero => intro a; exact Nat.le_refl a
  | succ fuel ih =>
    intro a
    unfold advA
    split
    · exact Nat.le_trans (by omega) (ih (a + 1))
    · exact Nat.le_refl a

theorem advA_le (c pivot : Nat) :
    ∀ fuel a, a ≤ c → advA less l c pivot fuel a ≤ c := by
  intro fuel
  induction fuel with
  | zero => intro a h; exact h
  | succ fuel ih =>
    intro a h
    unfold advA
    split
    case isTrue hcond => exact ih (a + 1) (by omega)
    case isFalse => exact h

theorem advA_skipped (c pivot : Nat) :
    ∀ fuel a k, a ≤ k → k < advA less l c pivot fuel a →
      less (elemD l k) (elemD l pivot) = true := by
  intro fuel
  induction fuel with
  | zero => intro a k h1 h2; unfold advA at h2; omega
  | succ fuel ih =>
    intro a k h1 h2
    unfold advA at h2
    split at h2
    case isTrue hcond =>
      rcases Nat.eq_or_lt_of_le h1 with he | hlt
      · rw [← he]; exact hcond.2
      · exact ih (a + 1) k hlt h2
    case isFalse => omega

theorem advA_stop (c pivot : Nat) :
    ∀ fuel a, c - a ≤ fuel →
      c ≤ advA less l c pivot fuel a ∨
        less (elemD l (advA less l c pivot fuel a)) (elemD l pivot) = false := by
  intro fuel
  induction fuel with
  | zero => intro a h; left; unfold advA; omega
  | succ fuel ih =>
    intro a h
    unfold advA
    split
    case isTrue hcond => exact ih (a + 1) (by omega)
    case isFalse hcond =>
      rcases Nat.lt_or_ge a c with hlt | hge
      · right
        cases hl : less (elemD l a) (elemD l pivot)
        · rfl
        · exact absurd ⟨hlt, hl⟩ hcond
      · left; omega

theorem advB_ge (c pivot : Nat) :
    ∀ fuel b, b ≤ advB less l c pivot fuel b := by
  intro fuel
  induction fuel with
  | zero => intro b; exact Nat.le_refl b
  | succ fuel ih =>
    intro b
    unfold advB
    split
    · exact Nat.le_trans (by omega) (ih (b + 1))
    · exact Nat.le_refl b

theorem advB_le (c pivot : Nat) :
    ∀ fuel b, b ≤ c → advB less l c pivot fuel b ≤ c := by
  intro fuel
  induction fuel with
  | zero => intro b h; exact h
  | succ fuel ih =>
    intro b h
    unfold advB
    split
    case isTrue hcond => exact ih (b + 1) (by omega)
    case isFalse => exact h

theorem advB_skipped (c pivot : Nat) :
    ∀ fuel b k, b ≤ k → k < advB less l c pivot fuel b →
      less (elemD l pivot) (elemD l k) = false := by
  intro fuel
  induction fuel with
  | zero => intro b k h1 h2; unfold advB at h2; omega
  | succ fuel ih =>
    intro b k h1 h2
    unfold advB at h2
    split at h2
    case isTrue hcond =>
      rcases Nat.eq_or_lt_of_le h1 with he | hlt
      · rw [← he]; exact hcond.2
      · exact ih (b + 1) k hlt h2
    case isFalse => omega

theorem advB_stop (c pivot : Nat) :
    ∀ fuel b, c - b ≤ fuel →
      c ≤ advB less l c pivot fuel b ∨
        less (elemD l pivot) (elemD l (advB less l c pivot fuel b)) = true := by
  intro fuel
  induction fuel with
  | zero => intro b h; left; unfold advB; omega
  | succ fuel ih =>
    intro b h
    unfold advB
    split
    case isTrue hcond => exact ih (b + 1) (by omega)
    case isFalse hcond =>
      rcases Nat.lt_or_ge b c with hlt | hge
      · right
        cases hl : less (elemD l pivot) (elemD l b)
        · exact absurd ⟨hlt, hl⟩ hcond
        · rfl
      · left; omega

theorem advC_le (b pivot : Nat) :
    ∀ fuel c, advC less l b pivot fuel c ≤ c := by
  intro fuel
  induction fuel with
  | zero => intro c; exact Nat.le_refl c
  | succ fuel ih =>
    intro c
    unfold advC
    split
    · exact Nat.le_trans (ih (c - 1)) (by omega)
    · exact Nat.le_refl c

theorem advC_ge (b pivot : Nat) :
    ∀ fuel c, b ≤ c → b ≤ advC less l b pivot fuel c := by
  intro fuel
  induction fuel with
  | zero => intro c h; exact h
  | succ fuel ih =>
    intro c h
    unfold advC
    split
    case isTrue hcond => exact ih (c - 1) (by omega)
    case isFalse => exact h

theorem advC_skipped (b pivot : Nat) :
    ∀ fuel c k, advC less l b pivot fuel c ≤ k → k < c →
      less (elemD l pivot) (elemD l k) = true := by
  intro fuel
  induction fuel with
  | zero => intro c k h1 h2; unfold advC at h1; omega
  | succ fuel ih =>
    intro c k h1 h2
    unfold advC at h1
    split at h1
    case isTrue hcond =>
      rcases Nat.lt_or_ge k (c - 1) with hlt | hge
      · exact ih (c - 1) k h1 hlt
      · have : k = c - 1 := by omega
        rw [this]
        exact hcond.2
    case isFalse => omega

theorem advC_stop (b pivot : Nat) :
    ∀ fuel c, c - b ≤ fuel →
      advC less l b pivot fuel c ≤ b ∨
        less (elemD l pivot) (elemD l (advC less l b pivot fuel c - 1)) = false := by
  intro fuel
  induction fuel with
  | zero => intro c h; left; unfold advC; omega
  | succ fuel ih =>
    intro c h
    unfold advC
    split
    case isTrue hcond => exact ih (c - 1) (by omega)
    case isFalse hcond =>
      rcases Nat.lt_or_ge b c with hlt | hge
      · right
        cases hl : less (elemD l pivot) (elemD l (c - 1))
        · rfl
        · exact absurd ⟨hlt, hl⟩ hcond
      · left; omega

theorem retreatB_le (a pivot : Nat) :
    ∀ fuel b, retreatB less l a pivot fuel b ≤ b := by
  intro fuel
  induction fuel with
  | zero => intro b; exact Nat.le_refl b
  | succ fuel ih =>
    intro b
    unfold retreatB
    split
    · exact Nat.le_trans (ih (b - 1)) (by omega)
    · exact Nat.le_refl b

theorem retreatB_ge (a pivot : Nat) :
    ∀ fuel b, a ≤ b → a ≤ retreatB less l a pivot fuel b := by
  intro fuel
  induction fuel with
  | zero => intro b h; exact h
  | succ fuel ih =>
    intro b h
    unfold retreatB
    split
    case isTrue hcond => exact ih (b - 1) (by omega)
    case isFalse => exact h

theorem retreatB_skipped (a pivot : Nat) :
    ∀ fuel b k, retreatB less l a pivot fuel b ≤ k → k < b →
      less (elemD l k) (elemD l pivot) = false := by
  intro fuel
  induction fuel with
  | zero => intro b k h1 h2; unfold retreatB at h1; omega
  | succ fuel ih =>
    intro b k h1 h2
    unfold retreatB at h1
    split at h1
    case isTrue hcond =>
      rcases Nat.lt_or_ge k (b - 1) with hlt | hge
      · exact ih (b - 1) k h1 hlt
      · have : k = b - 1 := by omega
        rw [this]
        exact hcond.2
    case isFalse => omega

theorem retreatB_stop (a pivot : Nat) :
    ∀ fuel b, b - a ≤ fuel →
      retreatB less l a pivot fuel b ≤ a ∨
        less (elemD l (retreatB less l a pivot fuel b - 1)) (elemD l pivot) = true := by
  intro fuel
  induction fuel with
  | zero => intro b h; left; unfold retreatB; omega
  | succ fuel ih =>
    intro b h
    unfold retreatB
    split
    case isTrue hcond => exact ih (b - 1) (by omega)
    case isFalse hcond =>
      rcases Nat.lt_or_ge a b with hlt | hge
      · right
        cases hl : less (elemD l (b - 1)) (elemD l pivot)
        · exact absurd ⟨hlt, hl⟩ hcond
        · rfl
      · left; omega

end AdvanceLoops

/-! ## Correctness of the short-range branch (shell pass + insertionSort) -/

section InsertionSort

variable {α : Type} [Inhabited α] (less : α → α → Bool)

theorem insInner_frame (a : Nat) :
    ∀ (j : Nat) (l : List α) (k : Nat), k < a ∨ j < k →
      elemD (insInner less a j l) k = elemD l k := by
  intro j
  induction j with
  | zero => intro l k hk; rfl
  | succ j ih =>
    intro l k hk
    unfold insInner
    split
    case isTrue h =>
      obtain ⟨h1, h2⟩ := h
      rw [ih (swapL l (j + 1) j) k ?_]
      · exact elemD_swapL_other l (j + 1) j k (by omega) (by omega)
      · rcases hk with hk | hk
        · exact Or.inl hk
        · exact Or.inr (by omega)
    case isFalse h => rfl

theorem insInner_spec (hA : Asymm less) (hN : NegTrans less) (a t : Nat) :
    ∀ (m : Nat) (l : List α), a ≤ m → m < t → t ≤ l.length →
      SortedSeg less l a m → SortedSeg less l m t →
      (∀ p q, a ≤ p → p < m → m < q → q < t →
        less (elemD l q) (elemD l p) = false) →
      SortedSeg less (insInner less a m l) a t := by
  intro m
  induction m with
  | zero =>
    intro l ha hm hl I1 I2 I3
    intro i j hi hij hj
    exact I2 i j (by omega) hij hj
  | succ m ih =>
    intro l ha hm hl I1 I2 I3
    unfold insInner
    split
    case isTrue h =>
      obtain ⟨h1, h2⟩ := h
      have hm1len : m + 1 < l.length := by omega
      have hmlen : m < l.length := by omega
      have e_hi : elemD (swapL l (m + 1) m) (m + 1) = elemD l m :=
        elemD_swapL_left l (m + 1) m hm1len hmlen
      have e_lo : elemD (swapL l (m + 1) m) m = elemD l (m + 1) :=
        elemD_swapL_right l (m + 1) m hm1len hmlen
      have e_other : ∀ k, k ≠ m + 1 → k ≠ m →
          elemD (swapL l (m + 1) m) k = elemD l k :=
        fun k hk1 hk2 => elemD_swapL_other l (m + 1) m k hk1 hk2
      refine ih (swapL l (m + 1) m) (by omega) (by omega)
        (by rw [swapL_length]; exact hl) ?_ ?_ ?_
      · intro i j hi hij hj
        rw [e_other i (by omega) (by omega), e_other j (by omega) (by omega)]
        exact I1 i j hi hij (by omega)
      · intro i j hi hij hj
        rcases Nat.eq_or_lt_of_le hi with hi1 | hi1
        · rcases Nat.eq_or_lt_of_le (show m + 1 ≤ j by omega) with hj1 | hj1
          · rw [← hi1, ← hj1, e_hi, e_lo]
            exact hA _ _ h2
          · rw [← hi1, e_lo, e_other j (by omega) (by omega)]
            exact I2 (m + 1) j (Nat.le_refl _) hj1 hj
        · rcases Nat.eq_or_lt_of_le (show m + 1 ≤ i by omega) with hi2 | hi2
          · rw [← hi2, e_hi, e_other j (by omega) (by omega)]
            exact I3 m j (by omega) (by omega) (by omega) hj
          · rw [e_other i (by omega) (by omega), e_other j (by omega) (by omega)]
            exact I2 i j (by omega) hij hj
      · intro p q hp hpm hmq hq
        rw [e_other p (by omega) (by omega)]
        rcases Nat.eq_or_lt_of_le (show m + 1 ≤ q by omega) with hq1 | hq1
        · rw [← hq1, e_hi]
          exact I1 p m hp hpm (by omega)
        · rw [e_other q (by omega) (by omega)]
          exact I3 p q hp (by omega) hq1 hq
    case isFalse h =>
      rcases Nat.lt_or_ge a (m + 1) with ha1 | ha1
      · have h2 : less (elemD l (m + 1)) (elemD l m) = false := by
          cases hv : less (elemD l (m + 1)) (elemD l m)
          · rfl
          · exact absurd ⟨ha1, hv⟩ h
        intro i j hi hij hj
        rcases Nat.lt_or_ge j (m + 1) with hj1 | hj1
        · exact I1 i j hi hij hj1
        · rcases Nat.lt_or_ge i (m + 1) with hi1 | hi1
          · rcases Nat.eq_or_lt_of_le hj1 with hj2 | hj2
            · rcases Nat.eq_or_lt_of_le (show i ≤ m by omega) with hi2 | hi2
              · rw [← hj2, hi2]
                exact h2
              · rw [← hj2]
                exact hN _ _ _ h2 (I1 i m hi hi2 (by omega))
            · exact I3 i j hi hi1 hj2 hj
          · exact I2 i j hi1 hij hj
      · intro i j hi hij hj
        exact I2 i j (by omega) hij hj

theorem insOuter_frame (a b : Nat) :
    ∀ (fuel i : Nat) (l : List α) (k : Nat), k < a ∨ b ≤ k →
      elemD (insOuter less a b fuel i l) k = elemD l k := by
  intro fuel
  induction fuel with
  | zero => intro i l k hk; rfl
  | succ fuel ih =>
    intro i l k hk
    unfold insOuter
    split
    case isTrue h =>
      rw [ih (i + 1) (insInner less a i l) k hk]
      refine insInner_frame less a i l k ?_
      rcases hk with hk | hk
      · exact Or.inl hk
      · exact Or.inr (by omega)
    case isFalse h => rfl

theorem insOuter_spec (hA : Asymm less) (hN : NegTrans less) (a b : Nat) :
    ∀ (fuel i : Nat) (l : List α), b - i ≤ fuel → a < i → b ≤ l.length →
      SortedSeg less l a i →
      SortedSeg less (insOuter less a b fuel i l) a b := by
  intro fuel
  induction fuel with
  | zero =>
    intro i l hfuel hai hb hsort
    unfold insOuter
    intro p q hp hpq hq
    exact hsort p q hp hpq (by omega)
  | succ fuel ih =>
    intro i l hfuel hai hb hsort
    unfold insOuter
    split
    case isTrue h =>
      refine ih (i + 1) (insInner less a i l) (by omega) (by omega)
        (by rw [(insInner_perm less a i l).length_eq]; exact hb) ?_
      refine insInner_spec less hA hN a (i + 1) i l (by omega) (by omega)
        (by omega) hsort ?_ ?_
      · intro p q hp hpq hq
        omega
      · intro p q hp hpm hmq hq
        omega
    case isFalse h =>
      intro p q hp hpq hq
      exact hsort p q hp hpq (by omega)

theorem insertionSortGo_spec (hA : Asymm less) (hN : NegTrans less)
    (l : List α) (a b : Nat) (hb : b ≤ l.length) :
    SortedSeg less (insertionSortGo less l a b) a b ∧
    (∀ k, k < a ∨ b ≤ k → elemD (insertionSortGo less l a b) k = elemD l k) := by
  constructor
  · refine insOuter_spec less hA hN a b (b - a) (a + 1) l (by omega)
      (by omega) hb ?_
    intro p q hp hpq hq
    omega
  · intro k hk
    exact insOuter_frame less a b (b - a) (a + 1) l k hk

theorem shellLoop_frame (b : Nat) :
    ∀ (fuel i : Nat) (l : List α) (k : Nat), k < i - 6 ∨ b ≤ k →
      elemD (shellLoop less b fuel i l) k = elemD l k := by
  intro fuel
  induction fuel with
  | zero => intro i l k hk; rfl
  | succ fuel ih =>
    intro i l k hk
    unfold shellLoop
    split
    case isTrue h =>
      rw [ih (i + 1) _ k (by omega)]
      split
      · exact elemD_swapL_other l i (i - 6) k (by omega) (by omega)
      · rfl
    case isFalse h => rfl

theorem smallSortGo_spec (hA : Asymm less) (hN : NegTrans less)
    (l : List α) (a b : Nat) (hb : b ≤ l.length) :
    SortedSeg less (smallSortGo less l a b) a b ∧
    (∀ k, k < a ∨ b ≤ k → elemD (smallSortGo less l a b) k = elemD l k) := by
  unfold smallSortGo
  split
  case isTrue h =>
    have hlen : b ≤ (shellLoop less b (b - a) (a + 6) l).length := by
      rw [(shellLoop_perm less b (b - a) (a + 6) l).length_eq]
      exact hb
    obtain ⟨hs, hf⟩ := insertionSortGo_spec less hA hN
      (shellLoop less b (b - a) (a + 6) l) a b hlen
    refine ⟨hs, ?_⟩
    intro k hk
    rw [hf k hk]
    exact shellLoop_frame less b (b - a) (a + 6) l k (by omega)
  case isFalse h =>
    refine ⟨?_, fun k _ => rfl⟩
    intro p q hp hpq hq
    omega

end InsertionSort

/-! ## medianOfThree: after the call, data[m0] ≤ data[m1] ≤ data[m2] -/

section MedianOfThree

variable {α : Type} [Inhabited α] (less : α → α → Bool)

theorem medianOfThreeGo_spec (hA : Asymm less) (l : List α) (m1 m0 m2 : Nat)
    (h01 : m0 ≠ m1) (h12 : m1 ≠ m2) (h02 : m0 ≠ m2)
    (hm0 : m0 < l.length) (hm1 : m1 < l.length) (hm2 : m2 < l.length) :
    less (elemD (medianOfThreeGo less l m1 m0 m2) m1)
        (elemD (medianOfThreeGo less l m1 m0 m2) m0) = false ∧
    less (elemD (medianOfThreeGo less l m1 m0 m2) m2)
        (elemD (medianOfThreeGo less l m1 m0 m2) m1) = false ∧
    (∀ k, k ≠ m0 → k ≠ m1 → k ≠ m2 →
      elemD (medianOfThreeGo less l m1 m0 m2) k = elemD l k) := by
  have hlen0 : ∀ i j : Nat, (swapL l i j).length = l.length := swapL_length l
  unfold medianOfThreeGo
  dsimp only
  by_cases h1 : less (elemD l m1) (elemD l m0) = true
  case pos =>
    rw [if_pos h1]
    have ea1 : elemD (swapL l m1 m0) m1 = elemD l m0 :=
      elemD_swapL_left l m1 m0 hm1 hm0
    have ea0 : elemD (swapL l m1 m0) m0 = elemD l m1 :=
      elemD_swapL_right l m1 m0 hm1 hm0
    have ea2 : elemD (swapL l m1 m0) m2 = elemD l m2 :=
      elemD_swapL_other l m1 m0 m2 (fun h => h12 h.symm) (fun h => h02 h.symm)
    have eak : ∀ k, k ≠ m0 → k ≠ m1 → k ≠ m2 →
        elemD (swapL l m1 m0) k = elemD l k := fun k hk0 hk1 _ =>
      elemD_swapL_other l m1 m0 k hk1 hk0
    have hla1 : m1 < (swapL l m1 m0).length := by rw [hlen0]; exact hm1
    have hla0 : m0 < (swapL l m1 m0).length := by rw [hlen0]; exact hm0
    have hla2 : m2 < (swapL l m1 m0).length := by rw [hlen0]; exact hm2
    by_cases h2 : less (elemD (swapL l m1 m0) m2) (elemD (swapL l m1 m0) m1) = true
    · rw [if_pos h2]
      have ec2 : elemD (swapL (swapL l m1 m0) m2 m1) m2 =
          elemD (swapL l m1 m0) m1 := elemD_swapL_left _ m2 m1 hla2 hla1
      have ec1 : elemD (swapL (swapL l m1 m0) m2 m1) m1 =
          elemD (swapL l m1 m0) m2 := elemD_swapL_right _ m2 m1 hla2 hla1
      have ec0 : elemD (swapL (swapL l m1 m0) m2 m1) m0 =
          elemD (swapL l m1 m0) m0 :=
        elemD_swapL_other _ m2 m1 m0 h02 h01
      have eck : ∀ k, k ≠ m0 → k ≠ m1 → k ≠ m2 →
          elemD (swapL (swapL l m1 m0) m2 m1) k = elemD (swapL l m1 m0) k :=
        fun k _ hk1 hk2 => elemD_swapL_other _ m2 m1 k hk2 hk1
      have hlc1 : m1 < (swapL (swapL l m1 m0) m2 m1).length := by
        rw [swapL_length, hlen0]; exact hm1
      have hlc0 : m0 < (swapL (swapL l m1 m0) m2 m1).length := by
        rw [swapL_length, hlen0]; exact hm0
      by_cases h3 : less (elemD (swapL (swapL l m1 m0) m2 m1) m1)
          (elemD (swapL (swapL l m1 m0) m2 m1) m0) = true
      · rw [if_pos h3]
        have ed1 : elemD (swapL (swapL (swapL l m1 m0) m2 m1) m1 m0) m1 =
            elemD (swapL (swapL l m1 m0) m2 m1) m0 :=
          elemD_swapL_left _ m1 m0 hlc1 hlc0
        have ed0 : elemD (swapL (swapL (swapL l m1 m0) m2 m1) m1 m0) m0 =
            elemD (swapL (swapL l m1 m0) m2 m1) m1 :=
          elemD_swapL_right _ m1 m0 hlc1 hlc0
        have ed2 : elemD (swapL (swapL (swapL l m1 m0) m2 m1) m1 m0) m2 =
            elemD (swapL (swapL l m1 m0) m2 m1) m2 :=
          elemD_swapL_other _ m1 m0 m2 h12.symm (fun h => h02 h.symm)
        refine ⟨?_, ?_, ?_⟩
        · rw [ed1, ed0]; exact hA _ _ h3
        · rw [ed2, ed1, ec2, ec0, ea1, ea0]; exact hA _ _ h1
        · intro k hk0 hk1 hk2
          rw [elemD_swapL_other _ m1 m0 k hk1 hk0, eck k hk0 hk1 hk2,
            eak k hk0 hk1 hk2]
      · rw [if_neg h3]
        have h3f : less (elemD (swapL (swapL l m1 m0) m2 m1) m1)
            (elemD (swapL (swapL l m1 m0) m2 m1) m0) = false := by
          simpa using h3
        refine ⟨h3f, ?_, ?_⟩
        · rw [ec2, ec1]; exact hA _ _ h2
        · intro k hk0 hk1 hk2
          rw [eck k hk0 hk1 hk2, eak k hk0 hk1 hk2]
    · rw [if_neg h2]
      have h2f : less (elemD (swapL l m1 m0) m2) (elemD (swapL l m1 m0) m1) =
          false := by simpa using h2
      refine ⟨?_, h2f, ?_⟩
      · rw [ea1, ea0]; exact hA _ _ h1
      · intro k hk0 hk1 hk2
        exact eak k hk0 hk1 hk2
  case neg =>
    rw [if_neg h1]
    have h1f : less (elemD l m1) (elemD l m0) = false := by simpa using h1
    by_cases h2 : less (elemD l m2) (elemD l m1) = true
    · rw [if_pos h2]
      have ec2 : elemD (swapL l m2 m1) m2 = elemD l m1 :=
        elemD_swapL_left l m2 m1 hm2 hm1
      have ec1 : elemD (swapL l m2 m1) m1 = elemD l m2 :=
        elemD_swapL_right l m2 m1 hm2 hm1
      have ec0 : elemD (swapL l m2 m1) m0 = elemD l m0 :=
        elemD_swapL_other l m2 m1 m0 h02 h01
      have eck : ∀ k, k ≠ m0 → k ≠ m1 → k ≠ m2 →
          elemD (swapL l m2 m1) k = elemD l k :=
        fun k _ hk1 hk2 => elemD_swapL_other l m2 m1 k hk2 hk1
      have hlc1 : m1 < (swapL l m2 m1).length := by rw [hlen0]; exact hm1
      have hlc0 : m0 < (swapL l m2 m1).length := by rw [hlen0]; exact hm0
      by_cases h3 : less (elemD (swapL l m2 m1) m1) (elemD (swapL l m2 m1) m0) =
          true
      · rw [if_pos h3]
        have ed1 : elemD (swapL (swapL l m2 m1) m1 m0) m1 =
            elemD (swapL l m2 m1) m0 := elemD_swapL_left _ m1 m0 hlc1 hlc0
        have ed0 : elemD (swapL (swapL l m2 m1) m1 m0) m0 =
            elemD (swapL l m2 m1) m1 := elemD_swapL_right _ m1 m0 hlc1 hlc0
        have ed2 : elemD (swapL (swapL l m2 m1) m1 m0) m2 =
            elemD (swapL l m2 m1) m2 :=
          elemD_swapL_other _ m1 m0 m2 h12.symm (fun h => h02 h.symm)
        refine ⟨?_, ?_, ?_⟩
        · rw [ed1, ed0]; exact hA _ _ h3
        · rw [ed2, ed1, ec2, ec0]; exact h1f
        · intro k hk0 hk1 hk2
          rw [elemD_swapL_other _ m1 m0 k hk1 hk0, eck k hk0 hk1 hk2]
      · rw [if_neg h3]
        have h3f : less (elemD (swapL l m2 m1) m1) (elemD (swapL l m2 m1) m0) =
            false := by simpa using h3
        refine ⟨h3f, ?_, ?_⟩
        · rw [ec2, ec1]; exact hA _ _ h2
        · intro k hk0 hk1 hk2
          exact eck k hk0 hk1 hk2
    · rw [if_neg h2]
      have h2f : less (elemD l m2) (elemD l m1) = false := by simpa using h2
      exact ⟨h1f, h2f, fun k _ _ _ => rfl⟩

end MedianOfThree

/-! ## The main partition loop of doPivot

On exit the two cursors agree; everything between the original b and the
final cursor is at most the pivot, everything between the final cursor and
the original c is strictly greater; nothing outside [b, c) moves. -/

section PartitionLoop

variable {α : Type} [Inhabited α] (less : α → α → Bool)

theorem partLoop_spec (pivot : Nat) :
    ∀ (fuel : Nat) (l : List α) (b c : Nat), pivot < b → b ≤ c →
      c ≤ l.length → c - b ≤ 2 * fuel →
      (partLoop less pivot fuel l b c).2.1 = (partLoop less pivot fuel l b c).2.2 ∧
      b ≤ (partLoop less pivot fuel l b c).2.1 ∧
      (partLoop less pivot fuel l b c).2.2 ≤ c ∧
      (∀ k, k < b ∨ c ≤ k →
        elemD (partLoop less pivot fuel l b c).1 k = elemD l k) ∧
      (∀ k, b ≤ k → k < (partLoop less pivot fuel l b c).2.1 →
        less (elemD l pivot) (elemD (partLoop less pivot fuel l b c).1 k) = false) ∧
      (∀ k, (partLoop less pivot fuel l b c).2.2 ≤ k → k < c →
        less (elemD l pivot) (elemD (partLoop less pivot fuel l b c).1 k) = true) := by
  intro fuel
  induction fuel with
  | zero =>
    intro l b c hpb hbc hc hfuel
    unfold partLoop
    dsimp only
    exact ⟨by omega, Nat.le_refl b, Nat.le_refl c, fun k _ => rfl,
      fun k h1 h2 => by omega, fun k h1 h2 => by omega⟩
  | succ fuel ih =>
    intro l b c hpb hbc hc hfuel
    unfold partLoop
    dsimp only
    have hb2ge : b ≤ advB less l c pivot c b := advB_ge less l c pivot c b
    have hb2le : advB less l c pivot c b ≤ c := advB_le less l c pivot c b hbc
    have hc2le : advC less l (advB less l c pivot c b) pivot c c ≤ c :=
      advC_le less l (advB less l c pivot c b) pivot c c
    have hc2ge : advB less l c pivot c b ≤
        advC less l (advB less l c pivot c b) pivot c c :=
      advC_ge less l (advB less l c pivot c b) pivot c c hb2le
    split
    case isTrue hexit =>
      dsimp only
      have heq : advB less l c pivot c b =
          advC less l (advB less l c pivot c b) pivot c c := by omega
      refine ⟨heq, hb2ge, hc2le, fun k _ => rfl, ?_, ?_⟩
      · intro k h1 h2
        exact advB_skipped less l c pivot c b k h1 h2
      · intro k h1 h2
        exact advC_skipped less l (advB less l c pivot c b) pivot c c k h1 h2
    case isFalse hns =>
      set b2 := advB less l c pivot c b with hb2def
      set c2 := advC less l b2 pivot c c with hc2def
      have hb2c2 : b2 < c2 := by omega
      have hstopB := advB_stop less l c pivot c b (by omega)
      have hstopC := advC_stop less l b2 pivot c c (by omega)
      have hltb2 : less (elemD l pivot) (elemD l b2) = true := by
        rcases hstopB with h | h
        · omega
        · exact h
      have hltc2 : less (elemD l pivot) (elemD l (c2 - 1)) = false := by
        rcases hstopC with h | h
        · omega
        · exact h
      have hsep : b2 + 2 ≤ c2 := by
        by_contra hcon
        have he : c2 - 1 = b2 := by omega
        rw [he] at hltc2
        simp [hltb2] at hltc2
      have hb2lt : b2 < l.length := by omega
      have hc21lt : c2 - 1 < l.length := by omega
      have hswlen : (swapL l b2 (c2 - 1)).length = l.length := swapL_length l _ _
      have epiv : elemD (swapL l b2 (c2 - 1)) pivot = elemD l pivot :=
        elemD_swapL_other l b2 (c2 - 1) pivot (by omega) (by omega)
      have eb2 : elemD (swapL l b2 (c2 - 1)) b2 = elemD l (c2 - 1) :=
        elemD_swapL_left l b2 (c2 - 1) hb2lt hc21lt
      have ec21 : elemD (swapL l b2 (c2 - 1)) (c2 - 1) = elemD l b2 :=
        elemD_swapL_right l b2 (c2 - 1) hb2lt hc21lt
      have eoth : ∀ k, k ≠ b2 → k ≠ c2 - 1 →
          elemD (swapL l b2 (c2 - 1)) k = elemD l k :=
        fun k h1 h2 => elemD_swapL_other l b2 (c2 - 1) k h1 h2
      obtain ⟨ih1, ih2, ih3, ih4, ih5, ih6⟩ :=
        ih (swapL l b2 (c2 - 1)) (b2 + 1) (c2 - 1) (by omega) (by omega)
          (by omega) (by omega)
      refine ⟨ih1, by omega, by omega, ?_, ?_, ?_⟩
      · intro k hk
        rw [ih4 k (by omega)]
        exact eoth k (by omega) (by omega)
      · intro k hk1 hk2
        rcases Nat.lt_or_ge k (b2 + 1) with hk3 | hk3
        · rw [ih4 k (Or.inl hk3)]
          rcases Nat.eq_or_lt_of_le (show k ≤ b2 by omega) with he | hlt
          · rw [he, eb2]
            exact hltc2
          · rw [eoth k (by omega) (by omega)]
            exact advB_skipped less l c pivot c b k hk1 hlt
        · rw [← epiv]
          exact ih5 k hk3 hk2
      · intro k hk1 hk2
        rcases Nat.lt_or_ge k (c2 - 1) with hk3 | hk3
        · rw [← epiv]
          exact ih6 k hk1 hk3
        · rw [ih4 k (Or.inr hk3)]
          rcases Nat.eq_or_lt_of_le hk3 with he | hlt
          · rw [← he, ec21]
            exact hltb2
          · rw [eoth k (by omega) (by omega)]
            exact advC_skipped less l b2 pivot c c k (by omega) hk2

end PartitionLoop

/-! ## The protect pass of doPivot

On exit the cursors agree; everything from the original a up to the final
cursor is strictly below the pivot, everything from the final cursor to the
original b is at least the pivot; nothing outside [a, b) moves. -/

section ProtectLoop

variable {α : Type} [Inhabited α] (less : α → α → Bool)

theorem protLoop_spec (pivot : Nat) :
    ∀ (fuel : Nat) (l : List α) (a b : Nat), pivot < a → a ≤ b →
      b ≤ l.length → b - a ≤ 2 * fuel →
      (protLoop less pivot fuel l a b).2.1 = (protLoop less pivot fuel l a b).2.2 ∧
      a ≤ (protLoop less pivot fuel l a b).2.1 ∧
      (protLoop less pivot fuel l a b).2.2 ≤ b ∧
      (∀ k, k < a ∨ b ≤ k →
        elemD (protLoop less pivot fuel l a b).1 k = elemD l k) ∧
      (∀ k, a ≤ k → k < (protLoop less pivot fuel l a b).2.1 →
        less (elemD (protLoop less pivot fuel l a b).1 k) (elemD l pivot) = true) ∧
      (∀ k, (protLoop less pivot fuel l a b).2.2 ≤ k → k < b →
        less (elemD (protLoop less pivot fuel l a b).1 k) (elemD l pivot) = false) := by
  intro fuel
  induction fuel with
  | zero =>
    intro l a b hpa hab hb hfuel
    unfold protLoop
    dsimp only
    exact ⟨by omega, Nat.le_refl a, Nat.le_refl b, fun k _ => rfl,
      fun k h1 h2 => by omega, fun k h1 h2 => by omega⟩
  | succ fuel ih =>
    intro l a b hpa hab hb hfuel
    unfold protLoop
    dsimp only
    have hb2le : retreatB less l a pivot b b ≤ b := retreatB_le less l a pivot b b
    have hb2ge : a ≤ retreatB less l a pivot b b := retreatB_ge less l a pivot b b hab
    have ha2ge : a ≤ advA less l (retreatB less l a pivot b b) pivot
        (retreatB less l a pivot b b) a :=
      advA_ge less l (retreatB less l a pivot b b) pivot _ a
    have ha2le : advA less l (retreatB less l a pivot b b) pivot
        (retreatB less l a pivot b b) a ≤ retreatB less l a pivot b b :=
      advA_le less l (retreatB less l a pivot b b) pivot _ a hb2ge
    split
    case isTrue hexit =>
      dsimp only
      refine ⟨by omega, ha2ge, hb2le, fun k _ => rfl, ?_, ?_⟩
      · intro k h1 h2
        exact advA_skipped less l (retreatB less l a pivot b b) pivot _ a k h1 h2
      · intro k h1 h2
        have hk2 : retreatB less l a pivot b b ≤ k := by omega
        exact retreatB_skipped less l a pivot b b k hk2 h2
    case isFalse hns =>
      set b2 := retreatB less l a pivot b b with hb2def
      set a2 := advA less l b2 pivot b2 a with ha2def
      have ha2b2 : a2 < b2 := by omega
      have hstopA := advA_stop less l b2 pivot b2 a (by omega)
      have hstopR := retreatB_stop less l a pivot b b (by omega)
      have hga : less (elemD l a2) (elemD l pivot) = false := by
        rcases hstopA with h | h
        · omega
        · exact h
      have hlb : less (elemD l (b2 - 1)) (elemD l pivot) = true := by
        rcases hstopR with h | h
        · omega
        · exact h
      have hsep : a2 + 2 ≤ b2 := by
        by_contra hcon
        have he : b2 - 1 = a2 := by omega
        rw [he] at hlb
        simp [hlb] at hga
      have ha2lt : a2 < l.length := by omega
      have hb21lt : b2 - 1 < l.length := by omega
      have hswlen : (swapL l a2 (b2 - 1)).length = l.length := swapL_length l _ _
      have epiv : elemD (swapL l a2 (b2 - 1)) pivot = elemD l pivot :=
        elemD_swapL_other l a2 (b2 - 1) pivot (by omega) (by omega)
      have ea2 : elemD (swapL l a2 (b2 - 1)) a2 = elemD l (b2 - 1) :=
        elemD_swapL_left l a2 (b2 - 1) ha2lt hb21lt
      have eb21 : elemD (swapL l a2 (b2 - 1)) (b2 - 1) = elemD l a2 :=
        elemD_swapL_right l a2 (b2 - 1) ha2lt hb21lt
      have eoth : ∀ k, k ≠ a2 → k ≠ b2 - 1 →
          elemD (swapL l a2 (b2 - 1)) k = elemD l k :=
        fun k h1 h2 => elemD_swapL_other l a2 (b2 - 1) k h1 h2
      obtain ⟨ih1, ih2, ih3, ih4, ih5, ih6⟩ :=
        ih (swapL l a2 (b2 - 1)) (a2 + 1) (b2 - 1) (by omega) (by omega)
          (by omega) (by omega)
      refine ⟨ih1, by omega, by omega, ?_, ?_, ?_⟩
      · intro k hk
        rw [ih4 k (by omega)]
        exact eoth k (by omega) (by omega)
      · intro k hk1 hk2
        rcases Nat.lt_or_ge k (a2 + 1) with hk3 | hk3
        · rw [ih4 k (Or.inl hk3)]
          rcases Nat.eq_or_lt_of_le (show k ≤ a2 by omega) with he | hlt
          · rw [he, ea2]
            exact hlb
          · rw [eoth k (by omega) (by omega)]
            exact advA_skipped less l b2 pivot b2 a k hk1 hlt
        · have := ih5 k hk3 hk2
          rw [epiv] at this
          exact this
      · intro k hk1 hk2
        rcases Nat.lt_or_ge k (b2 - 1) with hk3 | hk3
        · have := ih6 k hk1 hk3
          rw [epiv] at this
          exact this
        · rw [ih4 k (Or.inr hk3)]
          rcases Nat.eq_or_lt_of_le hk3 with he | hlt
          · rw [← he, eb21]
            exact hga
          · rw [eoth k (by omega) (by omega)]
            exact retreatB_skipped less l a pivot b b k (by omega) hk2

end ProtectLoop

/-! ## Pivot preparation: after pivotPrep, data[m] ≤ data[lo] ≤ data[hi-1] -/

section PivotPrep

variable {α : Type} [Inhabited α] (less : α → α → Bool)

theorem pivotPrep_spec (hA : Asymm less) (l : List α) (lo hi m : Nat)
    (h12 : lo + 12 < hi) (hlen : hi ≤ l.length) (hm : m = (lo + hi) / 2) :
    less (elemD (pivotPrep less l lo hi m) lo)
        (elemD (pivotPrep less l lo hi m) m) = false ∧
    less (elemD (pivotPrep less l lo hi m) (hi - 1))
        (elemD (pivotPrep less l lo hi m) lo) = false ∧
    (∀ k, k < lo ∨ hi ≤ k → elemD (pivotPrep less l lo hi m) k = elemD l k) := by
  unfold pivotPrep
  dsimp only
  split
  case isTrue h40 =>
    set s := (hi - lo) / 8 with hsdef
    have hs : 5 ≤ s := by omega
    set la := medianOfThreeGo less l lo (lo + s) (lo + 2 * s) with hladef
    set lb := medianOfThreeGo less la m (m - s) (m + s) with hlbdef
    set lc := medianOfThreeGo less lb (hi - 1) (hi - 1 - s) (hi - 1 - 2 * s) with hlcdef
    have hlena : la.length = l.length := (medianOfThreeGo_perm less l _ _ _).length_eq
    have hlenb : lb.length = l.length := by
      rw [hlbdef, (medianOfThreeGo_perm less la _ _ _).length_eq, hlena]
    have hlenc : lc.length = l.length := by
      rw [hlcdef, (medianOfThreeGo_perm less lb _ _ _).length_eq, hlenb]
    obtain ⟨p1, p2, p3⟩ := medianOfThreeGo_spec less hA lc lo m (hi - 1)
      (by omega) (by omega) (by omega) (by omega) (by omega) (by omega)
    refine ⟨p1, p2, ?_⟩
    intro k hk
    rw [p3 k (by omega) (by omega) (by omega)]
    obtain ⟨_, _, f3⟩ := medianOfThreeGo_spec less hA lb (hi - 1) (hi - 1 - s)
      (hi - 1 - 2 * s) (by omega) (by omega) (by omega)
      (by omega) (by omega) (by omega)
    rw [hlcdef, f3 k (by omega) (by omega) (by omega)]
    obtain ⟨_, _, f2⟩ := medianOfThreeGo_spec less hA la m (m - s) (m + s)
      (by omega) (by omega) (by omega) (by omega) (by omega) (by omega)
    rw [hlbdef, f2 k (by omega) (by omega) (by omega)]
    obtain ⟨_, _, f1⟩ := medianOfThreeGo_spec less hA l lo (lo + s) (lo + 2 * s)
      (by omega) (by omega) (by omega) (by omega) (by omega) (by omega)
    rw [hladef, f1 k (by omega) (by omega) (by omega)]
  case isFalse h40 =>
    obtain ⟨p1, p2, p3⟩ := medianOfThreeGo_spec less hA l lo m (hi - 1)
      (by omega) (by omega) (by omega) (by omega) (by omega) (by omega)
    exact ⟨p1, p2, fun k hk => p3 k (by omega) (by omega) (by omega)⟩

end PivotPrep

/-! ## The duplicate probes of doPivot

Starting from a fully partitioned state (left ≤ pivot, right > pivot,
watchdog position hi-1 ≥ pivot, cursors equal), the probe pass may widen
the middle region; afterwards the left of b is at most the pivot, the
middle [b, c) is equivalent to the pivot, the right from c is at least the
pivot, the strict region below the initial advA cursor a0 is untouched,
and nothing outside [lo, hi) moves. -/

section DupsCheck

variable {α : Type} [Inhabited α] (less : α → α → Bool)

theorem dupsCheck_spec (hA : Asymm less) (l2 : List α) (lo hi m b1 c1 a0 : Nat)
    (h12 : lo + 12 < hi) (hlen : hi ≤ l2.length) (hm : m = (lo + hi) / 2)
    (ha0 : lo + 1 ≤ a0) (ha0b : a0 ≤ b1) (hbc : b1 = c1) (hc1 : c1 ≤ hi - 1)
    (R0 : ∀ k, lo + 1 ≤ k → k < a0 →
      less (elemD l2 k) (elemD l2 lo) = true)
    (R1 : ∀ k, lo + 1 ≤ k → k < b1 →
      less (elemD l2 lo) (elemD l2 k) = false)
    (R2 : ∀ k, c1 ≤ k → k < hi - 1 →
      less (elemD l2 lo) (elemD l2 k) = true)
    (R3 : less (elemD l2 (hi - 1)) (elemD l2 lo) = false) :
    lo + 1 ≤ (dupsCheck less l2 lo hi m b1 c1).2.1 ∧
    a0 ≤ (dupsCheck less l2 lo hi m b1 c1).2.1 ∧
    (dupsCheck less l2 lo hi m b1 c1).2.1 ≤ (dupsCheck less l2 lo hi m b1 c1).2.2.1 ∧
    (dupsCheck less l2 lo hi m b1 c1).2.2.1 ≤ hi ∧
    elemD (dupsCheck less l2 lo hi m b1 c1).1 lo = elemD l2 lo ∧
    (∀ k, lo + 1 ≤ k → k < (dupsCheck less l2 lo hi m b1 c1).2.1 →
      less (elemD l2 lo) (elemD (dupsCheck less l2 lo hi m b1 c1).1 k) = false) ∧
    (∀ k, (dupsCheck less l2 lo hi m b1 c1).2.1 ≤ k →
        k < (dupsCheck less l2 lo hi m b1 c1).2.2.1 →
      less (elemD l2 lo) (elemD (dupsCheck less l2 lo hi m b1 c1).1 k) = false ∧
      less (elemD (dupsCheck less l2 lo hi m b1 c1).1 k) (elemD l2 lo) = false) ∧
    (∀ k, (dupsCheck less l2 lo hi m b1 c1).2.2.1 ≤ k → k < hi →
      less (elemD (dupsCheck less l2 lo hi m b1 c1).1 k) (elemD l2 lo) = false) ∧
    (∀ k, k < lo ∨ hi ≤ k →
      elemD (dupsCheck less l2 lo hi m b1 c1).1 k = elemD l2 k) ∧
    (∀ k, lo + 1 ≤ k → k < a0 →
      elemD (dupsCheck less l2 lo hi m b1 c1).1 k = elemD l2 k) := by
  unfold dupsCheck
  dsimp only
  split
  case isFalse hguard =>
    dsimp only
    refine ⟨by omega, by omega, by omega, by omega, rfl, ?_, ?_, ?_,
      fun k _ => rfl, fun k _ _ => rfl⟩
    · intro k h1 h2
      exact R1 k h1 h2
    · intro k h1 h2
      omega
    · intro k h1 h2
      rcases Nat.lt_or_ge k (hi - 1) with h3 | h3
      · exact hA _ _ (R2 k (by omega) h3)
      · have hk : k = hi - 1 := by omega
        rw [hk]
        exact R3
  case isTrue hguard =>
    obtain ⟨hg5', hg4⟩ := hguard
    have hg5 : 5 ≤ hi - c1 := by omega
    have hb1lo : lo + 10 ≤ b1 := by omega
    have hmb1 : m + 4 ≤ b1 := by omega
    have hmlo : lo + 1 ≤ m := by omega
    have hmhi : m < hi - 1 := by omega
    have hc1len : c1 < l2.length := by omega
    have hh1len : hi - 1 < l2.length := by omega
    -- probe 1 facts
    have P1b : elemD (dupsProbe1 less l2 lo hi c1).1 lo = elemD l2 lo := by
      unfold dupsProbe1
      split
      · exact elemD_swapL_other l2 c1 (hi - 1) lo (by omega) (by omega)
      · rfl
    have P1a : (dupsProbe1 less l2 lo hi c1).2.1 = c1 ∨
        (dupsProbe1 less l2 lo hi c1).2.1 = c1 + 1 := by
      unfold dupsProbe1
      split
      · right; rfl
      · left; rfl
    have P1c : ∀ k, k ≠ c1 → k ≠ hi - 1 →
        elemD (dupsProbe1 less l2 lo hi c1).1 k = elemD l2 k := by
      intro k h1 h2
      unfold dupsProbe1
      split
      · exact elemD_swapL_other l2 c1 (hi - 1) k h1 h2
      · rfl
    have P1d : ∀ k, (dupsProbe1 less l2 lo hi c1).2.1 ≤ k → k < hi →
        less (elemD (dupsProbe1 less l2 lo hi c1).1 k) (elemD l2 lo) = false := by
      intro k h1 h2
      unfold dupsProbe1 at h1 ⊢
      split at h1
      case isTrue hp1 =>
        dsimp only at h1 ⊢
        rw [if_pos hp1]
        dsimp only
        rcases Nat.lt_or_ge k (hi - 1) with h3 | h3
        · rw [elemD_swapL_other l2 c1 (hi - 1) k (by omega) (by omega)]
          exact hA _ _ (R2 k (by omega) h3)
        · have hk : k = hi - 1 := by omega
          rw [hk, elemD_swapL_right l2 c1 (hi - 1) hc1len hh1len]
          exact hA _ _ (R2 c1 (Nat.le_refl c1) (by omega))
      case isFalse hp1 =>
        dsimp only at h1 ⊢
        rw [if_neg hp1]
        dsimp only
        rcases Nat.lt_or_ge k (hi - 1) with h3 | h3
        · exact hA _ _ (R2 k (by omega) h3)
        · have hk : k = hi - 1 := by omega
          rw [hk]
          exact R3
    have P1e : ∀ k, b1 ≤ k → k < (dupsProbe1 less l2 lo hi c1).2.1 →
        less (elemD l2 lo) (elemD (dupsProbe1 less l2 lo hi c1).1 k) = false ∧
        less (elemD (dupsProbe1 less l2 lo hi c1).1 k) (elemD l2 lo) = false := by
      intro k h1 h2
      unfold dupsProbe1 at h2 ⊢
      split at h2
      case isTrue hp1 =>
        dsimp only at h2 ⊢
        rw [if_pos hp1]
        dsimp only
        have hk : k = c1 := by omega
        rw [hk, elemD_swapL_left l2 c1 (hi - 1) hc1len hh1len]
        exact ⟨hp1, R3⟩
      case isFalse hp1 =>
        dsimp only at h2 ⊢
        omega
    have P1f : (dupsProbe1 less l2 lo hi c1).1.length = l2.length :=
      (dupsProbe1_perm less l2 lo hi c1).length_eq
    set l3 := (dupsProbe1 less l2 lo hi c1).1 with hl3def
    set c2 := (dupsProbe1 less l2 lo hi c1).2.1 with hc2def
    -- probe 2 facts
    have P2a : (dupsProbe2 less l3 lo b1).1 = b1 ∨
        ((dupsProbe2 less l3 lo b1).1 = b1 - 1 ∧
          less (elemD l3 (b1 - 1)) (elemD l3 lo) = false) := by
      unfold dupsProbe2
      split
      case isTrue h => exact Or.inr ⟨rfl, h⟩
      case isFalse h => exact Or.inl rfl
    have hval_b11 : elemD l3 (b1 - 1) = elemD l2 (b1 - 1) :=
      P1c (b1 - 1) (by omega) (by omega)
    have P2b : ∀ k, (dupsProbe2 less l3 lo b1).1 ≤ k → k < b1 →
        less (elemD l2 lo) (elemD l3 k) = false ∧
        less (elemD l3 k) (elemD l2 lo) = false := by
      intro k h1 h2
      rcases P2a with hp | ⟨hp, hcond⟩
      · omega
      · rw [hp] at h1
        have hk : k = b1 - 1 := by omega
        rw [hk, hval_b11]
        rw [hval_b11, P1b] at hcond
        exact ⟨R1 (b1 - 1) (by omega) (by omega), hcond⟩
    have P2c : a0 ≤ (dupsProbe2 less l3 lo b1).1 := by
      rcases P2a with hp | ⟨hp, hcond⟩
      · omega
      · rw [hval_b11, P1b] at hcond
        rcases Nat.lt_or_ge (b1 - 1) a0 with h3 | h3
        · have hr := R0 (b1 - 1) (by omega) h3
          rw [hr] at hcond
          simp at hcond
        · omega
    set b2 := (dupsProbe2 less l3 lo b1).1 with hb2def
    have hb2b1 : b1 - 1 ≤ b2 ∧ b2 ≤ b1 := by
      rcases P2a with hp | ⟨hp, _⟩ <;> omega
    -- probe 3 facts
    have hval_m : elemD l3 m = elemD l2 m := P1c m (by omega) (by omega)
    have hval_b21 : elemD l3 (b2 - 1) = elemD l2 (b2 - 1) :=
      P1c (b2 - 1) (by omega) (by omega)
    have hmlen : m < l3.length := by omega
    have hb21len : b2 - 1 < l3.length := by omega
    have P3cases : ((dupsProbe3 less l3 lo m b2).1 = l3 ∧
          (dupsProbe3 less l3 lo m b2).2.1 = b2) ∨
        ((dupsProbe3 less l3 lo m b2).1 = swapL l3 m (b2 - 1) ∧
          (dupsProbe3 less l3 lo m b2).2.1 = b2 - 1 ∧
          less (elemD l2 m) (elemD l2 lo) = false ∧ a0 ≤ m) := by
      unfold dupsProbe3
      split
      case isTrue h =>
        rw [hval_m, P1b] at h
        refine Or.inr ⟨rfl, rfl, h, ?_⟩
        rcases Nat.lt_or_ge m a0 with h3 | h3
        · have hr := R0 m (by omega) h3
          rw [hr] at h
          simp at h
        · exact h3
      case isFalse h => exact Or.inl ⟨rfl, rfl⟩
    set l4 := (dupsProbe3 less l3 lo m b2).1 with hl4def
    set b3 := (dupsProbe3 less l3 lo m b2).2.1 with hb3def
    have hb3b2 : b2 - 1 ≤ b3 ∧ b3 ≤ b2 := by
      rcases P3cases with ⟨_, hp⟩ | ⟨_, hp, _, _⟩ <;> omega
    have ha0b3 : a0 ≤ b3 := by
      rcases P3cases with ⟨_, hp⟩ | ⟨_, hp, _, ham⟩ <;> omega
    have P3b : elemD l4 lo = elemD l2 lo := by
      rcases P3cases with ⟨hp, _⟩ | ⟨hp, _, _, ham⟩
      · rw [hp, P1b]
      · rw [hp, elemD_swapL_other l3 m (b2 - 1) lo (by omega) (by omega), P1b]
    have P3c : ∀ k, k ≠ m → k ≠ b2 - 1 → elemD l4 k = elemD l3 k := by
      intro k h1 h2
      rcases P3cases with ⟨hp, _⟩ | ⟨hp, _, _, _⟩
      · rw [hp]
      · rw [hp, elemD_swapL_other l3 m (b2 - 1) k h1 h2]
    have P3f : ∀ k, lo + 1 ≤ k → k < b3 →
        less (elemD l2 lo) (elemD l4 k) = false := by
      intro k h1 h2
      rcases P3cases with ⟨hp, hpb⟩ | ⟨hp, hpb, hcond, ham⟩
      · rw [hp]
        rw [P1c k (by omega) (by omega)]
        exact R1 k h1 (by omega)
      · rw [hp]
        by_cases hkm : k = m
        · rw [hkm, elemD_swapL_left l3 m (b2 - 1) hmlen hb21len, hval_b21]
          exact R1 (b2 - 1) (by omega) (by omega)
        · rw [elemD_swapL_other l3 m (b2 - 1) k hkm (by omega),
            P1c k (by omega) (by omega)]
          exact R1 k h1 (by omega)
    have P3d : ∀ k, b3 ≤ k → k < b2 →
        less (elemD l2 lo) (elemD l4 k) = false ∧
        less (elemD l4 k) (elemD l2 lo) = false := by
      intro k h1 h2
      rcases P3cases with ⟨hp, hpb⟩ | ⟨hp, hpb, hcond, ham⟩
      · omega
      · rw [hp]
        have hk : k = b2 - 1 := by omega
        rw [hk, elemD_swapL_right l3 m (b2 - 1) hmlen hb21len, hval_m]
        exact ⟨R1 m (by omega) (by omega), hcond⟩
    have P3g : ∀ k, lo + 1 ≤ k → k < a0 → elemD l4 k = elemD l2 k := by
      intro k h1 h2
      rcases P3cases with ⟨hp, _⟩ | ⟨hp, _, _, ham⟩
      · rw [hp, P1c k (by omega) (by omega)]
      · rw [hp, elemD_swapL_other l3 m (b2 - 1) k (by omega) (by omega),
          P1c k (by omega) (by omega)]
    have hc2bounds : c2 = c1 ∨ c2 = c1 + 1 := P1a
    -- assemble
    refine ⟨by omega, ha0b3, by omega, by omega, P3b, P3f, ?_, ?_, ?_, P3g⟩
    · intro k h1 h2
      rcases Nat.lt_or_ge k b2 with h3 | h3
      · exact P3d k h1 h3
      · have h4 : elemD l4 k = elemD l3 k := P3c k (by omega) (by omega)
        rcases Nat.lt_or_ge k b1 with h5 | h5
        · rw [h4]
          exact P2b k (by omega) h5
        · rw [h4]
          exact P1e k h5 (by omega)
    · intro k h1 h2
      have h4 : elemD l4 k = elemD l3 k := P3c k (by omega) (by omega)
      rw [h4]
      exact P1d k h1 h2
    · intro k hk
      rw [P3c k (by omega) (by omega), P1c k (by omega) (by omega)]

end DupsCheck

/-! ## The doPivot postcondition

doPivot returns (midlo, midhi) with lo ≤ midlo < midhi ≤ hi; afterwards the
pivot value sits at midlo, everything in [lo, midlo) is at most the pivot,
everything in [midlo, midhi) is equivalent to it, everything in [midhi, hi)
is at least it, and nothing outside [lo, hi) moves. -/

section DoPivot

variable {α : Type} [Inhabited α] (less : α → α → Bool)

theorem less_irrefl (hA : Asymm less) (x : α) : less x x = false := by
  cases h : less x x
  · rfl
  · have := hA x x h
    rw [h] at this
    exact this

theorem doPivotGo_spec (hA : Asymm less) (l : List α) (lo hi : Nat)
    (h12 : lo + 12 < hi) (hlen : hi ≤ l.length) :
    lo ≤ (doPivotGo less l lo hi).2.1 ∧
    (doPivotGo less l lo hi).2.1 < (doPivotGo less l lo hi).2.2 ∧
    (doPivotGo less l lo hi).2.2 ≤ hi ∧
    (∀ k, k < lo ∨ hi ≤ k →
      elemD (doPivotGo less l lo hi).1 k = elemD l k) ∧
    (∀ k, lo ≤ k → k < (doPivotGo less l lo hi).2.1 →
      less (elemD (doPivotGo less l lo hi).1 (doPivotGo less l lo hi).2.1)
        (elemD (doPivotGo less l lo hi).1 k) = false) ∧
    (∀ k, (doPivotGo less l lo hi).2.1 ≤ k → k < (doPivotGo less l lo hi).2.2 →
      less (elemD (doPivotGo less l lo hi).1 (doPivotGo less l lo hi).2.1)
        (elemD (doPivotGo less l lo hi).1 k) = false ∧
      less (elemD (doPivotGo less l lo hi).1 k)
        (elemD (doPivotGo less l lo hi).1 (doPivotGo less l lo hi).2.1) = false) ∧
    (∀ k, (doPivotGo less l lo hi).2.2 ≤ k → k < hi →
      less (elemD (doPivotGo less l lo hi).1 k)
        (elemD (doPivotGo less l lo hi).1 (doPivotGo less l lo hi).2.1) = false) := by
  have hirr := less_irrefl less hA
  unfold doPivotGo
  dsimp only
  set m := (lo + hi) / 2 with hmdef
  set l1 := pivotPrep less l lo hi m with hl1def
  obtain ⟨pp1, pp2, ppf⟩ := pivotPrep_spec less hA l lo hi m h12 hlen hmdef
  have plen1 : l1.length = l.length := (pivotPrep_perm less l lo hi m).length_eq
  set a0 := advA less l1 (hi - 1) lo (hi - 1) (lo + 1) with ha0def
  have ha0ge : lo + 1 ≤ a0 := advA_ge less l1 (hi - 1) lo (hi - 1) (lo + 1)
  have ha0le : a0 ≤ hi - 1 := advA_le less l1 (hi - 1) lo (hi - 1) (lo + 1) (by omega)
  have haskip : ∀ k, lo + 1 ≤ k → k < a0 →
      less (elemD l1 k) (elemD l1 lo) = true :=
    fun k h1 h2 => advA_skipped less l1 (hi - 1) lo (hi - 1) (lo + 1) k h1 h2
  obtain ⟨pl1, pl2, pl3, pl4, pl5, pl6⟩ :=
    partLoop_spec less lo hi l1 a0 (hi - 1) (by omega) (by omega)
      (by omega) (by omega)
  set l2 := (partLoop less lo hi l1 a0 (hi - 1)).1 with hl2def
  set b1 := (partLoop less lo hi l1 a0 (hi - 1)).2.1 with hb1def
  set c1 := (partLoop less lo hi l1 a0 (hi - 1)).2.2 with hc1def
  have hlen2 : l2.length = l.length := by
    rw [hl2def, (partLoop_perm less lo hi l1 a0 (hi - 1)).length_eq, plen1]
  have hv2 : elemD l2 lo = elemD l1 lo := pl4 lo (by omega)
  have hvh : elemD l2 (hi - 1) = elemD l1 (hi - 1) := pl4 (hi - 1) (by omega)
  have R0 : ∀ k, lo + 1 ≤ k → k < a0 →
      less (elemD l2 k) (elemD l2 lo) = true := by
    intro k h1 h2
    rw [pl4 k (by omega), hv2]
    exact haskip k h1 h2
  have R1 : ∀ k, lo + 1 ≤ k → k < b1 →
      less (elemD l2 lo) (elemD l2 k) = false := by
    intro k h1 h2
    rcases Nat.lt_or_ge k a0 with h3 | h3
    · exact hA _ _ (R0 k h1 h3)
    · rw [hv2]
      exact pl5 k h3 h2
  have R2 : ∀ k, c1 ≤ k → k < hi - 1 →
      less (elemD l2 lo) (elemD l2 k) = true := by
    intro k h1 h2
    rw [hv2]
    exact pl6 k h1 h2
  have R3 : less (elemD l2 (hi - 1)) (elemD l2 lo) = false := by
    rw [hv2, hvh]
    exact pp2
  obtain ⟨D1a, D1b, D1c, D1d, D2, D3, D4, D5, D6, D9⟩ :=
    dupsCheck_spec less hA l2 lo hi m b1 c1 a0 h12 (by omega) hmdef
      ha0ge pl2 pl1 pl3 R0 R1 R2 R3
  set l4 := (dupsCheck less l2 lo hi m b1 c1).1 with hl4def
  set b3 := (dupsCheck less l2 lo hi m b1 c1).2.1 with hb3def
  set c3 := (dupsCheck less l2 lo hi m b1 c1).2.2.1 with hc3def
  have hlen4 : l4.length = l.length := by
    rw [hl4def, (dupsCheck_perm less l2 lo hi m b1 c1).length_eq, hlen2]
  -- unified facts about the state before the final swap
  have hmain : ∀ l5 b4 : Nat → Unit → Unit, True := fun _ _ => trivial
  clear hmain
  have hstage : ∃ (l5 : List α) (b4 : Nat),
      (if (dupsCheck less l2 lo hi m b1 c1).2.2.2 = true then
        ((protLoop less lo hi l4 a0 b3).1,
          (protLoop less lo hi l4 a0 b3).2.2)
      else (l4, b3)) = (l5, b4) ∧
      a0 ≤ b4 ∧ b4 ≤ b3 ∧ l5.length = l.length ∧
      elemD l5 lo = elemD l2 lo ∧
      (∀ k, lo + 1 ≤ k → k < b4 →
        less (elemD l2 lo) (elemD l5 k) = false) ∧
      (∀ k, b4 ≤ k → k < c3 →
        less (elemD l2 lo) (elemD l5 k) = false ∧
        less (elemD l5 k) (elemD l2 lo) = false) ∧
      (∀ k, c3 ≤ k → k < hi →
        less (elemD l5 k) (elemD l2 lo) = false) ∧
      (∀ k, k < lo ∨ hi ≤ k → elemD l5 k = elemD l2 k) := by
    split
    case isTrue hprot =>
      obtain ⟨pr1, pr2, pr3, pr4, pr5, pr6⟩ :=
        protLoop_spec less lo hi l4 a0 b3 (by omega) D1b (by omega) (by omega)
      set l5 := (protLoop less lo hi l4 a0 b3).1 with hl5def
      set rA := (protLoop less lo hi l4 a0 b3).2.1 with hrAdef
      set rB := (protLoop less lo hi l4 a0 b3).2.2 with hrBdef
      have hlen5 : l5.length = l.length := by
        rw [hl5def, (protLoop_perm less lo hi l4 a0 b3).length_eq, hlen4]
      have hv4 : elemD l4 lo = elemD l2 lo := D2
      have hv5 : elemD l5 lo = elemD l2 lo := by
        rw [pr4 lo (by omega), hv4]
      -- the whole protect window stays at most the pivot
      have hseg : ∀ k, a0 ≤ k → k < b3 →
          less (elemD l2 lo) (elemD l5 k) = false := by
        refine segPres l4 l5 a0 b3 D1b (by omega)
          (protLoop_perm less lo hi l4 a0 b3) pr4
          (fun x => less (elemD l2 lo) x = false) ?_
        intro k h1 h2
        exact D3 k (by omega) h2
      refine ⟨l5, rB, rfl, by omega, pr3, hlen5, hv5, ?_, ?_, ?_, ?_⟩
      · intro k h1 h2
        rcases Nat.lt_or_ge k a0 with h3 | h3
        · rw [pr4 k (Or.inl h3), D9 k h1 h3]
          exact hA _ _ (R0 k h1 h3)
        · have := pr5 k h3 (by omega)
          rw [hv4] at this
          exact hA _ _ this
      · intro k h1 h2
        rcases Nat.lt_or_ge k b3 with h3 | h3
        · have hge := pr6 k h1 h3
          rw [hv4] at hge
          exact ⟨hseg k (by omega) h3, hge⟩
        · rw [pr4 k (Or.inr h3)]
          exact D4 k (by omega) h2
      · intro k h1 h2
        rw [pr4 k (Or.inr (by omega))]
        exact D5 k h1 h2
      · intro k hk
        rw [pr4 k (by omega)]
        exact D6 k hk
    case isFalse hprot =>
      refine ⟨l4, b3, rfl, D1b, Nat.le_refl b3, hlen4, D2, ?_, ?_, ?_, ?_⟩
      · intro k h1 h2
        exact D3 k h1 h2
      · intro k h1 h2
        exact D4 k h1 h2
      · intro k h1 h2
        exact D5 k h1 h2
      · intro k hk
        exact D6 k hk
  obtain ⟨l5, b4, hpair, hb4ge, hb4le, hlen5, hv5, U3, U4, U5, U6⟩ := hstage
  rw [hpair]
  dsimp only
  have hlolt : lo < l5.length := by omega
  have hb41lt : b4 - 1 < l5.length := by omega
  have ew : elemD (swapL l5 lo (b4 - 1)) (b4 - 1) = elemD l5 lo :=
    elemD_swapL_right l5 lo (b4 - 1) hlolt hb41lt
  have elo : elemD (swapL l5 lo (b4 - 1)) lo = elemD l5 (b4 - 1) :=
    elemD_swapL_left l5 lo (b4 - 1) hlolt hb41lt
  have eoth : ∀ k, k ≠ lo → k ≠ b4 - 1 →
      elemD (swapL l5 lo (b4 - 1)) k = elemD l5 k :=
    fun k h1 h2 => elemD_swapL_other l5 lo (b4 - 1) k h1 h2
  have hw : elemD (swapL l5 lo (b4 - 1)) (b4 - 1) = elemD l2 lo := by
    rw [ew, hv5]
  refine ⟨by omega, by omega, D1d, ?_, ?_, ?_, ?_⟩
  · intro k hk
    rw [eoth k (by omega) (by omega), U6 k hk, pl4 k (by omega)]
    exact ppf k hk
  · intro k h1 h2
    rw [hw]
    rcases Nat.eq_or_lt_of_le h1 with he | hlt
    · rw [← he, elo]
      exact U3 (b4 - 1) (by omega) (by omega)
    · rw [eoth k (by omega) (by omega)]
      exact U3 k (by omega) (by omega)
  · intro k h1 h2
    rw [hw]
    rcases Nat.eq_or_lt_of_le h1 with he | hlt
    · rw [← he, ew, hv5]
      exact ⟨hirr _, hirr _⟩
    · rw [eoth k (by omega) (by omega)]
      exact U4 k (by omega) h2
  · intro k h1 h2
    rw [hw]
    rw [eoth k (by omega) (by omega)]
    exact U5 k (by omega) h2

end DoPivot

/-! ## heapSort: the depth-exhausted fallback of quickSort -/

section HeapSort

variable {α : Type} [Inhabited α] (less : α → α → Bool)

theorem siftLoop_frame (first hi : Nat) :
    ∀ (fuel root : Nat) (l : List α) (k : Nat),
      k < first + root ∨ first + hi ≤ k →
      elemD (siftLoop less first hi fuel root l) k = elemD l k := by
  intro fuel
  induction fuel with
  | zero => intro root l k hk; rfl
  | succ fuel ih =>
    intro root l k hk
    unfold siftLoop
    dsimp only
    split
    · rfl
    case isFalse hchild =>
      split <;> split
      · rfl
      case isFalse.isTrue hsel hstop => rfl
      case isTrue.isFalse hsel hstop =>
        rw [ih _ _ k (by omega)]
        exact elemD_swapL_other l _ _ k (by omega) (by omega)
      case isFalse.isFalse hsel hstop =>
        rw [ih _ _ k (by omega)]
        exact elemD_swapL_other l _ _ k (by omega) (by omega)

theorem siftLoop_spec (hA : Asymm less) (hN : NegTrans less)
    (first hi r0 : Nat) :
    ∀ (fuel root : Nat) (l : List α), hi - root ≤ fuel → r0 ≤ root →
      first + hi ≤ l.length →
      (∀ j, r0 ≤ j → j ≠ root → HeapChildrenOk less l first hi j) →
      (r0 < root → ∀ c, (c = 2 * root + 1 ∨ c = 2 * root + 2) → c < hi →
        less (elemD l (first + (root - 1) / 2)) (elemD l (first + c)) = false) →
      ∀ j, r0 ≤ j →
        HeapChildrenOk less (siftLoop less first hi fuel root l) first hi j := by
  intro fuel
  induction fuel with
  | zero =>
    intro root l hfuel hr0 hlen Ha Hb j hj
    intro c hc hchi
    by_cases hjr : j = root
    · omega
    · exact Ha j hj hjr c hc hchi
  | succ fuel ih =>
    intro root l hfuel hr0 hlen Ha Hb j hj
    unfold siftLoop
    dsimp only
    split
    case isTrue hchild =>
      intro c hc hchi
      by_cases hjr : j = root
      · omega
      · exact Ha j hj hjr c hc hchi
    case isFalse hchild =>
      have hchlt : 2 * root + 1 < hi := by omega
      have key : ∀ cs, (cs = 2 * root + 1 ∨ cs = 2 * root + 2) → cs < hi →
          (∀ c, (c = 2 * root + 1 ∨ c = 2 * root + 2) → c < hi → c ≠ cs →
            less (elemD l (first + cs)) (elemD l (first + c)) = false) →
          HeapChildrenOk less
            (if less (elemD l (first + root)) (elemD l (first + cs)) = false
              then l
              else siftLoop less first hi fuel cs
                (swapL l (first + root) (first + cs)))
            first hi j := by
        intro cs hcs hcslt hmax
        split
        case isTrue hstop =>
          intro c hc hchi
          by_cases hjr : j = root
          · subst hjr
            by_cases hceq : c = cs
            · rw [hceq]
              exact hstop
            · exact hN _ _ _ hstop (hmax c hc hchi hceq)
          · exact Ha j hj hjr c hc hchi
        case isFalse hstop =>
          have hswc : less (elemD l (first + root)) (elemD l (first + cs)) =
              true := by simpa using hstop
          have hprlt : first + root < l.length := by omega
          have hpclt : first + cs < l.length := by omega
          have er : elemD (swapL l (first + root) (first + cs)) (first + root) =
              elemD l (first + cs) := elemD_swapL_left l _ _ hprlt hpclt
          have ec : elemD (swapL l (first + root) (first + cs)) (first + cs) =
              elemD l (first + root) := elemD_swapL_right l _ _ hprlt hpclt
          have eo : ∀ k, k ≠ first + root → k ≠ first + cs →
              elemD (swapL l (first + root) (first + cs)) k = elemD l k :=
            fun k h1 h2 => elemD_swapL_other l _ _ k h1 h2
          refine ih cs (swapL l (first + root) (first + cs)) (by omega)
            (by omega) (by rw [swapL_length]; exact hlen) ?_ ?_ j hj
          · intro j' hj' hj'cs c hc hchi
            by_cases hj'r : j' = root
            · subst hj'r
              by_cases hceq : c = cs
              · rw [hceq, er, ec]
                exact hA _ _ hswc
              · rw [er, eo (first + c) (by omega) (by omega)]
                exact hmax c hc hchi hceq
            · by_cases hcr : c = root
              · have hj'par : j' = (root - 1) / 2 := by omega
                have hr0root : r0 < root := by omega
                rw [hcr, er, eo (first + j') (by omega) (by omega)]
                have hb := Hb hr0root cs hcs hcslt
                rw [← hj'par] at hb
                exact hb
              · by_cases hccs : c = cs
                · omega
                · rw [eo (first + j') (by omega) (by omega),
                    eo (first + c) (by omega) (by omega)]
                  exact Ha j' hj' hj'r c hc hchi
          · intro hr0cs c hc hchi
            have hpar : (cs - 1) / 2 = root := by omega
            rw [hpar, er, eo (first + c) (by omega) (by omega)]
            exact Ha cs (by omega) (by omega) c hc hchi
      by_cases hsel : 2 * root + 1 + 1 < hi ∧
          less (elemD l (first + (2 * root + 1)))
            (elemD l (first + (2 * root + 1) + 1)) = true
      · rw [if_pos hsel]
        refine key (2 * root + 1 + 1) (by omega) hsel.1 ?_
        intro c hc hchi hcne
        have hcc : c = 2 * root + 1 := by omega
        rw [hcc]
        exact hA _ _ hsel.2
      · rw [if_neg hsel]
        refine key (2 * root + 1) (by omega) hchlt ?_
        intro c hc hchi hcne
        have hcc : c = 2 * root + 1 + 1 := by omega
        subst hcc
        cases hv : less (elemD l (first + (2 * root + 1)))
            (elemD l (first + (2 * root + 1) + 1))
        · exact hv
        · exact absurd ⟨by omega, hv⟩ hsel

theorem heap_root_max (hA : Asymm less) (hN : NegTrans less)
    (first hi : Nat) (l : List α)
    (hheap : ∀ j, HeapChildrenOk less l first hi j) :
    ∀ j, j < hi → less (elemD l first) (elemD l (first + j)) = false := by
  have H : ∀ n j, j ≤ n → j < hi →
      less (elemD l first) (elemD l (first + j)) = false := by
    intro n
    induction n with
    | zero =>
      intro j hjn hj
      have hj0 : j = 0 := by omega
      subst hj0
      exact less_irrefl less hA _
    | succ n ih =>
      intro j hjn hj
      rcases Nat.eq_zero_or_pos j with h0 | hpos
      · subst h0
        exact less_irrefl less hA _
      · have hcj : j = 2 * ((j - 1) / 2) + 1 ∨ j = 2 * ((j - 1) / 2) + 2 := by
          omega
        exact hN _ _ _ (ih _ (by omega) (by omega))
          (hheap ((j - 1) / 2) j hcj hj)
  intro j hj
  exact H j j le_rfl hj

theorem heapBuild_frame (first hi : Nat) :
    ∀ (k : Nat) (l : List α) (pos : Nat),
      pos < first ∨ first + hi ≤ pos →
      elemD (heapBuild less first hi k l) pos = elemD l pos := by
  intro k
  induction k with
  | zero => intro l pos hpos; rfl
  | succ k ih =>
    intro l pos hpos
    unfold heapBuild siftDownGo
    rw [ih _ pos hpos]
    exact siftLoop_frame less first hi (hi + 1) k l pos (by omega)

theorem heapBuild_spec (hA : Asymm less) (hN : NegTrans less)
    (first hi : Nat) :
    ∀ (k : Nat) (l : List α), first + hi ≤ l.length →
      (∀ j, k ≤ j → HeapChildrenOk less l first hi j) →
      ∀ j, HeapChildrenOk less (heapBuild less first hi k l) first hi j := by
  intro k
  induction k with
  | zero => intro l hlen hinv j; exact hinv j (Nat.zero_le j)
  | succ k ih =>
    intro l hlen hinv j
    unfold heapBuild
    refine ih _ ?_ ?_ j
    · rw [(siftDownGo_perm less l k hi first).length_eq]
      exact hlen
    · intro j' hj'
      refine siftLoop_spec less hA hN first hi k (hi + 1) k l (by omega)
        le_rfl hlen ?_ ?_ j' hj'
      · intro j'' hj'' hne
        exact hinv j'' (by omega)
      · intro hlt
        exact absurd hlt (lt_irrefl k)

theorem heapPop_frame (first : Nat) :
    ∀ (k : Nat) (l : List α) (pos : Nat),
      pos < first ∨ first + k ≤ pos →
      elemD (heapPop less first k l) pos = elemD l pos := by
  intro k
  induction k with
  | zero => intro l pos hpos; rfl
  | succ k ih =>
    intro l pos hpos
    unfold heapPop siftDownGo
    rw [ih _ pos (by omega)]
    rw [siftLoop_frame less first k (k + 1) 0 _ pos (by omega)]
    exact elemD_swapL_other l first (first + k) pos (by omega) (by omega)

theorem heapPop_spec (hA : Asymm less) (hN : NegTrans less)
    (first hi0 : Nat) :
    ∀ (k : Nat) (l : List α), k ≤ hi0 → first + hi0 ≤ l.length →
      (∀ j, HeapChildrenOk less l first k j) →
      SortedSeg less l (first + k) (first + hi0) →
      (∀ i j, i < k → k ≤ j → j < hi0 →
        less (elemD l (first + j)) (elemD l (first + i)) = false) →
      SortedSeg less (heapPop less first k l) first (first + hi0) := by
  intro k
  induction k with
  | zero =>
    intro l hk hlen hheap hsorted hsep
    exact hsorted
  | succ k ih =>
    intro l hk hlen hheap hsorted hsep
    unfold heapPop siftDownGo
    set l1 := swapL l first (first + k) with hl1
    set l2 := siftLoop less first k (k + 1) 0 l1 with hl2
    have hlen1 : l1.length = l.length := (swapL_perm l first (first + k)).length_eq
    have p2 : l2.Perm l1 := siftLoop_perm less first k (k + 1) 0 l1
    have hlen2 : l2.length = l.length := by rw [p2.length_eq, hlen1]
    have hfk : first + k < l.length := by omega
    have hf : first < l.length := by omega
    have e1 : elemD l1 first = elemD l (first + k) :=
      elemD_swapL_left l first (first + k) hf hfk
    have e2 : elemD l1 (first + k) = elemD l first :=
      elemD_swapL_right l first (first + k) hf hfk
    have eo : ∀ p, p ≠ first → p ≠ first + k → elemD l1 p = elemD l p :=
      fun p h1 h2 => elemD_swapL_other l first (first + k) p h1 h2
    have f2 : ∀ p, p < first ∨ first + k ≤ p → elemD l2 p = elemD l1 p :=
      fun p hp => siftLoop_frame less first k (k + 1) 0 l1 p (by omega)
    have hheap2 : ∀ j, HeapChildrenOk less l2 first k j := by
      intro j
      refine siftLoop_spec less hA hN first k 0 (k + 1) 0 l1 (by omega)
        (Nat.zero_le 0) (by omega) ?_ ?_ j (Nat.zero_le j)
      · intro j' hj0 hne c hc hck
        have hjk : j' < k := by omega
        rw [eo (first + j') (by omega) (by omega),
          eo (first + c) (by omega) (by omega)]
        exact hheap j' c hc (by omega)
      · intro hlt
        exact absurd hlt (lt_irrefl 0)
    have hsorted2 : SortedSeg less l2 (first + k) (first + hi0) := by
      intro i j h1 h2 h3
      rw [f2 i (Or.inr h1), f2 j (Or.inr (by omega))]
      rcases Nat.eq_or_lt_of_le h1 with hik | hik
      · rw [← hik, e2, eo j (by omega) (by omega)]
        have hj' : j = first + (j - first) := by omega
        rw [hj']
        exact hsep 0 (j - first) (by omega) (by omega) (by omega)
      · rw [eo i (by omega) (by omega), eo j (by omega) (by omega)]
        exact hsorted i j (by omega) h2 h3
    have hP2 : ∀ p, first ≤ p → p < first + k →
        less (elemD l first) (elemD l2 p) = false ∧
        ∀ j', k + 1 ≤ j' → j' < hi0 →
          less (elemD l (first + j')) (elemD l2 p) = false := by
      refine segPres l1 l2 first (first + k) (by omega) (by omega) p2 f2
        (fun x => less (elemD l first) x = false ∧
          ∀ j', k + 1 ≤ j' → j' < hi0 →
            less (elemD l (first + j')) x = false) ?_
      intro p hp1 hp2
      rcases Nat.eq_or_lt_of_le hp1 with hpf | hpf
      · rw [← hpf, e1]
        constructor
        · exact heap_root_max less hA hN first (k + 1) l hheap k (by omega)
        · intro j' hj1 hj2
          exact hsep k j' (by omega) (by omega) hj2
      · rw [eo p (by omega) (by omega)]
        have hp' : p = first + (p - first) := by omega
        rw [hp']
        constructor
        · exact heap_root_max less hA hN first (k + 1) l hheap (p - first)
            (by omega)
        · intro j' hj1 hj2
          exact hsep (p - first) j' (by omega) (by omega) hj2
    have hsep2 : ∀ i j, i < k → k ≤ j → j < hi0 →
        less (elemD l2 (first + j)) (elemD l2 (first + i)) = false := by
      intro i j hik hkj hjlt
      have hPi := hP2 (first + i) (by omega) (by omega)
      rcases Nat.eq_or_lt_of_le hkj with hjk | hjk
      · rw [← hjk, f2 (first + k) (Or.inr le_rfl), e2]
        exact hPi.1
      · rw [f2 (first + j) (Or.inr (by omega)),
          eo (first + j) (by omega) (by omega)]
        exact hPi.2 j (by omega) hjlt
    exact ih l2 (by omega) (by omega) hheap2 hsorted2 hsep2

theorem heapSortGo_spec (hA : Asymm less) (hN : NegTrans less)
    (l : List α) (a b : Nat) (hab : a ≤ b) (hb : b ≤ l.length) :
    SortedSeg less (heapSortGo less l a b) a b ∧
    (∀ k, k < a ∨ b ≤ k → elemD (heapSortGo less l a b) k = elemD l k) := by
  unfold heapSortGo
  set l1 := heapBuild less a (b - a) ((b - a - 1) / 2 + 1) l with hl1
  have hlen1 : a + (b - a) ≤ l1.length := by
    rw [(heapBuild_perm less a (b - a) _ l).length_eq]
    omega
  have hheap1 : ∀ j, HeapChildrenOk less l1 a (b - a) j := by
    refine heapBuild_spec less hA hN a (b - a) _ l (by omega) ?_
    intro j hj c hc hck
    exact absurd hck (by omega)
  have hsort := heapPop_spec less hA hN a (b - a) (b - a) l1 le_rfl hlen1
    hheap1 ?_ ?_
  · constructor
    · intro i j h1 h2 h3
      exact hsort i j h1 h2 (by omega)
    · intro k hk
      rw [heapPop_frame less a (b - a) l1 k (by omega)]
      exact heapBuild_frame less a (b - a) _ l k (by omega)
  · intro i j h1 h2 h3
    exact absurd h2 (by omega)
  · intro i j h1 h2 h3
    exact absurd h3 (by omega)

end HeapSort

/-! ## quickSort: sortedness of the full sort.Slice pipeline -/

section QuickSort

variable {α : Type} [Inhabited α] (less : α → α → Bool)

/-- Two sorted segments separated by a middle band equivalent to the pivot
value glue into one sorted range. -/
theorem sorted_glue (hN : NegTrans less) (q : List α) (a mlo mhi b : Nat)
    (w : α) (h1 : SortedSeg less q a mlo) (h2 : SortedSeg less q mhi b)
    (hup : ∀ k, a ≤ k → k < mhi → less w (elemD q k) = false)
    (hdn : ∀ k, mlo ≤ k → k < b → less (elemD q k) w = false) :
    SortedSeg less q a b := by
  intro i j hai hij hjb
  by_cases hjm : j < mlo
  · exact h1 i j hai hij hjm
  · by_cases him : mhi ≤ i
    · exact h2 i j him hij hjb
    · exact hN _ w _ (hdn j (by omega) hjb) (hup i hai (by omega))

theorem quickSortGo_spec (hA : Asymm less) (hN : NegTrans less) :
    ∀ (d : Nat) (l : List α) (a b : Nat), a ≤ b → b ≤ l.length →
      SortedSeg less (quickSortGo less d l a b) a b ∧
      (∀ k, k < a ∨ b ≤ k → elemD (quickSortGo less d l a b) k = elemD l k) := by
  intro d
  induction d with
  | zero =>
    intro l a b hab hb
    unfold quickSortGo
    split
    · exact heapSortGo_spec less hA hN l a b hab hb
    · exact smallSortGo_spec less hA hN l a b hb
  | succ d ih =>
    intro l a b hab hb
    unfold quickSortGo
    dsimp only
    split
    case isFalse h => exact smallSortGo_spec less hA hN l a b hb
    case isTrue h =>
      have h12 : a + 12 < b := by omega
      obtain ⟨q1, q2, q3, q4, q5, q6, q7⟩ := doPivotGo_spec less hA l a b h12 hb
      have hplen : (doPivotGo less l a b).1.length = l.length :=
        (doPivotGo_perm less l a b).length_eq
      set p := doPivotGo less l a b with hp
      set mlo := p.2.1 with hmlo
      set mhi := p.2.2 with hmhi
      split
      case isTrue hside =>
        obtain ⟨s1, f1⟩ := ih p.1 a mlo q1 (by omega)
        have hq1len : (quickSortGo less d p.1 a mlo).length = p.1.length :=
          (quickSortGo_perm less d p.1 a mlo).length_eq
        set r1 := quickSortGo less d p.1 a mlo with hr1
        obtain ⟨s2, f2⟩ := ih r1 mhi b q3 (by omega)
        have hq2len : (quickSortGo less d r1 mhi b).length = r1.length :=
          (quickSortGo_perm less d r1 mhi b).length_eq
        set r2 := quickSortGo less d r1 mhi b with hr2
        have b5 : ∀ k, a ≤ k → k < mlo →
            less (elemD p.1 mlo) (elemD r1 k) = false := by
          refine segPres p.1 r1 a mlo q1 (by omega)
            (quickSortGo_perm less d p.1 a mlo) f1
            (fun x => less (elemD p.1 mlo) x = false) q5
        have hup : ∀ k, a ≤ k → k < mhi →
            less (elemD p.1 mlo) (elemD r2 k) = false := by
          intro k hk1 hk2
          rw [f2 k (Or.inl hk2)]
          by_cases hkm : k < mlo
          · exact b5 k hk1 hkm
          · rw [f1 k (Or.inr (by omega))]
            exact (q6 k (by omega) hk2).1
        have hdn0 : ∀ k, mhi ≤ k → k < b →
            less (elemD r1 k) (elemD p.1 mlo) = false := by
          intro k hk1 hk2
          rw [f1 k (Or.inr (by omega))]
          exact q7 k hk1 hk2
        have b7 : ∀ k, mhi ≤ k → k < b →
            less (elemD r2 k) (elemD p.1 mlo) = false := by
          refine segPres r1 r2 mhi b q3 (by omega)
            (quickSortGo_perm less d r1 mhi b) f2
            (fun x => less x (elemD p.1 mlo) = false) hdn0
        have hdn : ∀ k, mlo ≤ k → k < b →
            less (elemD r2 k) (elemD p.1 mlo) = false := by
          intro k hk1 hk2
          by_cases hkm : k < mhi
          · rw [f2 k (Or.inl hkm), f1 k (Or.inr hk1)]
            exact (q6 k hk1 hkm).2
          · exact b7 k (by omega) hk2
        have s1' : SortedSeg less r2 a mlo := by
          intro i j hi1 hi2 hi3
          rw [f2 i (Or.inl (by omega)), f2 j (Or.inl (by omega))]
          exact s1 i j hi1 hi2 hi3
        constructor
        · exact sorted_glue less hN r2 a mlo mhi b (elemD p.1 mlo) s1' s2
            hup hdn
        · intro k hk
          rcases hk with hk | hk
          · rw [f2 k (Or.inl (by omega)), f1 k (Or.inl hk)]
            exact q4 k (Or.inl hk)
          · rw [f2 k (Or.inr hk), f1 k (Or.inr (by omega))]
            exact q4 k (Or.inr hk)
      case isFalse hside =>
        obtain ⟨s1, f1⟩ := ih p.1 mhi b q3 (by omega)
        have hq1len : (quickSortGo less d p.1 mhi b).length = p.1.length :=
          (quickSortGo_perm less d p.1 mhi b).length_eq
        set r1 := quickSortGo less d p.1 mhi b with hr1
        obtain ⟨s2, f2⟩ := ih r1 a mlo q1 (by omega)
        have hq2len : (quickSortGo less d r1 a mlo).length = r1.length :=
          (quickSortGo_perm less d r1 a mlo).length_eq
        set r2 := quickSortGo less d r1 a mlo with hr2
        have b7 : ∀ k, mhi ≤ k → k < b →
            less (elemD r1 k) (elemD p.1 mlo) = false := by
          refine segPres p.1 r1 mhi b q3 (by omega)
            (quickSortGo_perm less d p.1 mhi b) f1
            (fun x => less x (elemD p.1 mlo) = false) q7
        have hdn : ∀ k, mlo ≤ k → k < b →
            less (elemD r2 k) (elemD p.1 mlo) = false := by
          intro k hk1 hk2
          rw [f2 k (Or.inr hk1)]
          by_cases hkm : k < mhi
          · rw [f1 k (Or.inl hkm)]
            exact (q6 k hk1 hkm).2
          · exact b7 k (by omega) hk2
        have hup0 : ∀ k, a ≤ k → k < mlo →
            less (elemD p.1 mlo) (elemD r1 k) = false := by
          intro k hk1 hk2
          rw [f1 k (Or.inl (by omega))]
          exact q5 k hk1 hk2
        have b5 : ∀ k, a ≤ k → k < mlo →
            less (elemD p.1 mlo) (elemD r2 k) = false := by
          refine segPres r1 r2 a mlo q1 (by omega)
            (quickSortGo_perm less d r1 a mlo) f2
            (fun x => less (elemD p.1 mlo) x = false) hup0
        have hup : ∀ k, a ≤ k → k < mhi →
            less (elemD p.1 mlo) (elemD r2 k) = false := by
          intro k hk1 hk2
          by_cases hkm : k < mlo
          · exact b5 k hk1 hkm
          · rw [f2 k (Or.inr (by omega)), f1 k (Or.inl hk2)]
            exact (q6 k (by omega) hk2).1
        have s1' : SortedSeg less r2 mhi b := by
          intro i j hi1 hi2 hi3
          rw [f2 i (Or.inr (by omega)), f2 j (Or.inr (by omega))]
          exact s1 i j hi1 hi2 hi3
        constructor
        · exact sorted_glue less hN r2 a mlo mhi b (elemD p.1 mlo) s2 s1'
            hup hdn
        · intro k hk
          rcases hk with hk | hk
          · rw [f2 k (Or.inl hk), f1 k (Or.inl (by omega))]
            exact q4 k (Or.inl hk)
          · rw [f2 k (Or.inr (by omega)), f1 k (Or.inr hk)]
            exact q4 k (Or.inr hk)

/-- sort.Slice leaves the slice sorted with respect to the comparison,
whenever that comparison is a strict weak order. -/
theorem sortSliceGo_sorted (hA : Asymm less) (hN : NegTrans less)
    (l : List α) : SortedSeg less (sortSliceGo less l) 0 l.length := by
  unfold sortSliceGo
  exact (quickSortGo_spec less hA hN (maxDepthGo l.length) l 0 l.length
    (Nat.zero_le _) le_rfl).1

end QuickSort

/-! ## The flush comparison is a strict weak order -/

theorem pmLess_asymm : Asymm pmLess := by
  intro x y h
  simp only [pmLess, timeBefore, Bool.or_eq_true, Bool.and_eq_true,
    decide_eq_true_eq] at h
  simp only [pmLess, timeBefore, Bool.or_eq_false_iff, Bool.and_eq_false_iff,
    decide_eq_false_iff_not]
  omega

theorem pmLess_negTrans : NegTrans pmLess := by
  intro x y z hxy hyz
  simp only [pmLess, timeBefore, Bool.or_eq_false_iff, Bool.and_eq_false_iff,
    decide_eq_false_iff_not] at hxy hyz ⊢
  omega

/-- sort.Slice applied to the batch leaves the timestamps non-decreasing:
no later record is Before an earlier one. -/
theorem sortMessages_sorted (buf : List ParsedMessage) :
    SortedSeg pmLess (sortMessages buf) 0 buf.length :=
  sortSliceGo_sorted pmLess pmLess_asymm pmLess_negTrans buf

/-! # Claims -/

/-- C1: every Record appended to the shared buffer by parseMessage appears
in exactly one flushed batch across every mutex-serialized interleaving of
append and flush critical sections: at each point of every trace, the number
of occurrences of a record across all drained batches plus its occurrences
in the pending buffer equals the number of times it was appended — no
append is lost and none is duplicated into two batches. -/
theorem appends_flushed_exactly_once (ops : List Op) (pm : ParsedMessage) :
    (runOps startState ops).batches.flatten.count pm +
      (runOps startState ops).buf.count pm = appendCount pm ops := by
  have h := runOps_count pm ops startState
  simpa [startState] using h

/-- C5: after any trace, the pending buffer holds exactly the appends since
the previous drain, the batch a drain returns has exactly that size
(sorting permutes it), and the drain leaves an empty buffer created with
capacity equal to the drained batch's length. -/
theorem drain_returns_all_pending (ops : List Op) :
    (runOps startState ops).buf.length = appendsSinceDrain 0 ops ∧
    (sortMessages (runOps startState ops).buf).length =
      (runOps startState ops).buf.length ∧
    ∃ lines, flushTickE (runOps startState ops).buf =
      .ok (lines, [],
        if 0 < (runOps startState ops).buf.length then
          some (runOps startState ops).buf.length
        else none) := by
  refine ⟨?_, sortMessages_length _, flushTickE_ok _⟩
  have h := runOps_buf_len ops startState
  simpa [startState] using h

/-- C10: the flusher's first-byte test TextPayload[0] is only evaluated
under the guard TextPayload != "", so the string index is always in bounds
and the out-of-bounds (panic) branch is unreachable for every record and
every batch. -/
theorem text_index_always_in_bounds (pm : ParsedMessage)
    (buf : List ParsedMessage) :
    (emitRecordE pm).isOk = true ∧ (flushTickE buf).isOk = true := by
  constructor
  · obtain ⟨lines, hl⟩ := emitRecordE_isOk pm
    rw [hl]
    rfl
  · obtain ⟨lines, hl⟩ := flushTickE_ok buf
    rw [hl]
    rfl

/-- C7: a record with empty text contributes no output line at all, and a
record whose non-empty text does not start with a bracket is emitted
verbatim as one line with no timestamp; the lines of a flush are exactly
the concatenated per-record emissions over the sorted batch. -/
theorem empty_skipped_continuation_verbatim (buf : List ParsedMessage)
    (pm : ParsedMessage) :
    (pm.TextPayload = "" → emitRecordE pm = .ok []) ∧
    (∀ c cs, pm.TextPayload.data = c :: cs → c ≠ '[' →
      emitRecordE pm = .ok [pm.TextPayload]) ∧
    (0 < buf.length → ∃ lines, flushTickE buf = .ok (lines, [], some buf.length) ∧
      emitAllE (sortMessages buf) = .ok lines) := by
  refine ⟨?_, ?_, ?_⟩
  · intro h
    simp [emitRecordE, h]
  · intro c cs hd hc
    have hne : ¬ pm.TextPayload = "" := by
      intro h0
      rw [h0] at hd
      simp at hd
    simp [emitRecordE, hne, hd, hc]
  · intro h
    obtain ⟨lines, hl⟩ := flushTickE_ok buf
    rw [if_pos h] at hl
    refine ⟨lines, hl, ?_⟩
    have := hl
    unfold flushTickE at this
    rw [if_pos h] at this
    cases he : emitAllE (sortMessages buf) with
    | error e => rw [he] at this; exact absurd this (by simp)
    | ok ls => rw [he] at this; simp at this; rw [this]

/-- C7 witness: a record with empty text emits nothing, a continuation
record is emitted verbatim, and a one-record batch flushes to exactly
that verbatim line. -/
theorem empty_skipped_continuation_verbatim_witness :
    emitRecordE ⟨"", ⟨5, 0, 0⟩⟩ = .ok [] ∧
    emitRecordE ⟨"continuation line", ⟨5, 0, 0⟩⟩ = .ok ["continuation line"] ∧
    ∃ lines,
      flushTickE [⟨"continuation line", ⟨5, 0, 0⟩⟩] = .ok (lines, [], some 1) ∧
      emitAllE (sortMessages [⟨"continuation line", ⟨5, 0, 0⟩⟩]) = .ok lines := by
  refine ⟨?_, ?_, ?_⟩
  · exact (empty_skipped_continuation_verbatim [] ⟨"", ⟨5, 0, 0⟩⟩).1 rfl
  · exact (empty_skipped_continuation_verbatim [] ⟨"continuation line", ⟨5, 0, 0⟩⟩).2.1
      'c' "ontinuation line".data (by decide) (by decide)
  · exact (empty_skipped_continuation_verbatim
      [⟨"continuation line", ⟨5, 0, 0⟩⟩] ⟨"", ⟨5, 0, 0⟩⟩).2.2 (by decide)

/-- C3 counterexample: the payload {"textPayload":"[x]"} is valid JSON and
is missing the required field timestamp, yet parseMessage does append a
Record (with the zero time.Time) — json.Unmarshal zero-fills missing
fields instead of failing, so the payload is not dropped. -/
theorem missing_field_payload_still_appended :
    parseMessage [] (some (.obj [("textPayload", .str "[x]")])) =
      [⟨"[x]", zeroGoTime⟩] ∧
    ([⟨"[x]", zeroGoTime⟩] : List ParsedMessage) ≠ [] := by
  exact ⟨by decide, by decide⟩

/-- C3 amended: a valid JSON payload with a missing required field is NOT
dropped: the missing field keeps its zero value (empty string, zero time)
and the Record is still appended; only payloads whose decoding fails
(malformed JSON, or a present field of the wrong type or format) are
dropped. -/
theorem missing_fields_zero_filled (buf : List ParsedMessage) :
    (∀ flds : List (String × JVal),
      (∀ kv ∈ flds, kv.1 ≠ "textPayload" ∧ kv.1 ≠ "timestamp") →
      parseMessage buf (some (.obj flds)) = buf ++ [⟨"", zeroGoTime⟩]) ∧
    (∀ s, parseMessage buf (some (.obj [("textPayload", JVal.str s)])) =
      buf ++ [⟨s, zeroGoTime⟩]) ∧
    (∀ ts t, parseRFC3339 ts = some t →
      parseMessage buf (some (.obj [("timestamp", JVal.str ts)])) =
        buf ++ [⟨"", t⟩]) := by
  refine ⟨?_, ?_, ?_⟩
  · intro flds hf
    have hfold : ∀ (flds' : List (String × JVal)) st,
        (∀ kv ∈ flds', kv.1 ≠ "textPayload" ∧ kv.1 ≠ "timestamp") →
        flds'.foldl decodeField st = st := by
      intro flds'
      induction flds' with
      | nil => intro st _; rfl
      | cons kv rest ih =>
        intro st hkv
        have h1 := hkv kv (by simp)
        have : decodeField st kv = st := by
          simp [decodeField, h1.1, h1.2]
        rw [List.foldl_cons, this]
        exact ih st (fun x hx => hkv x (by simp [hx]))
    simp [parseMessage, decodePM, hfold flds _ hf]
  · intro s
    simp [parseMessage, decodePM, decodeField]
  · intro ts t ht
    simp [parseMessage, decodePM, decodeField, ht]

/-- C3 amended witness: concrete payloads with missing required fields are
appended with zero defaults. -/
theorem missing_fields_zero_filled_witness :
    parseMessage [] (some (.obj [("other", JVal.null)])) =
      [⟨"", zeroGoTime⟩] ∧
    parseMessage [] (some (.obj [("textPayload", JVal.str "hello")])) =
      [⟨"hello", zeroGoTime⟩] ∧
    parseMessage [] (some (.obj [("timestamp", JVal.str "2021-03-01T12:00:00Z")])) =
      [⟨"", ⟨1614600000, 0, 0⟩⟩] := by
  refine ⟨?_, ?_, ?_⟩
  · exact (missing_fields_zero_filled []).1 [("other", JVal.null)] (by decide)
  · exact (missing_fields_zero_filled []).2.1 "hello"
  · exact (missing_fields_zero_filled []).2.2 "2021-03-01T12:00:00Z"
      ⟨1614600000, 0, 0⟩ (by decide)

/-- C6: a payload that fails JSON decoding (not well-formed, or a document
whose decode errors) appends nothing to the buffer, propagates no error,
and the message is still acknowledged; for every payload the
acknowledgement step comes strictly after the parseMessage step. -/
theorem malformed_dropped_still_acked (buf : List ParsedMessage)
    (data : Option JVal) :
    ((data = none ∨ ∃ v, data = some v ∧ decodePM v = .error ()) →
      (handleDelivery buf data).1 = buf) ∧
    (handleDelivery buf data).2 = true ∧
    ∃ pre post, receiveCallbackSteps data = pre ++ HandlerStep.ack :: post ∧
      HandlerStep.parse data ∈ pre := by
  refine ⟨?_, rfl, ⟨[HandlerStep.parse data], [], rfl, by simp⟩⟩
  intro h
  rcases h with h | ⟨v, hv, herr⟩
  · rw [h]; rfl
  · rw [hv]
    simp [handleDelivery, parseMessage, herr]

/-- C6 witness: a syntactically malformed payload and a mistyped document
are both dropped and still acknowledged. -/
theorem malformed_dropped_still_acked_witness :
    (handleDelivery [] none).1 = [] ∧ (handleDelivery [] none).2 = true ∧
    (handleDelivery [] (some (JVal.str "oops"))).1 = [] ∧
    (handleDelivery [] (some (JVal.str "oops"))).2 = true := by
  refine ⟨?_, ?_, ?_, ?_⟩
  · exact (malformed_dropped_still_acked [] none).1 (Or.inl rfl)
  · exact (malformed_dropped_still_acked [] none).2.1
  · exact (malformed_dropped_still_acked [] (some (JVal.str "oops"))).1
      (Or.inr ⟨JVal.str "oops", rfl, rfl⟩)
  · exact (malformed_dropped_still_acked [] (some (JVal.str "oops"))).2.1

/-- C4 counterexample: the emitted header line does not always carry nine
fractional-second digits: for nanoseconds 500000000 the Go layout
".999999999" trims trailing zeros and prints ".5". -/
theorem header_fraction_not_nine_digits :
    emitRecordE ⟨"[x]", ⟨1614600000, 500000000, 0⟩⟩ =
      .ok ["[2021-03-01 12:00:00.5 UTC]: [x]"] ∧
    "[2021-03-01 12:00:00.5 UTC]: [x]" ≠
      "[2021-03-01 12:00:00.500000000 UTC]: [x]" := by
  exact ⟨by decide, by decide⟩

/-- C4 amended: a record whose non-empty text starts with a bracket is
emitted as "[<timestamp>]: <text>" where the timestamp is formatted with
up to nine fractional-second digits, trailing zeros removed and the
fraction omitted entirely when the nanosecond part is zero; the spec's
example with nanoseconds 123456789 prints all nine digits exactly as
claimed. -/
theorem header_line_format (pm : ParsedMessage) (cs : List Char)
    (hd : pm.TextPayload.data = '[' :: cs) :
    emitRecordE pm =
      .ok ["[" ++ goTimeFormatPG pm.Timestamp ++ "]: " ++ pm.TextPayload] ∧
    (pm.Timestamp.nsec ≠ 0 → ∃ k,
      "." ++ padNum 9 pm.Timestamp.nsec =
        fmtFrac9 pm.Timestamp.nsec ++ String.mk (List.replicate k '0')) ∧
    fmtFrac9 0 = "" ∧
    emitRecordE ⟨"[start of entry]", ⟨1614600000, 123456789, 0⟩⟩ =
      .ok ["[2021-03-01 12:00:00.123456789 UTC]: [start of entry]"] := by
  refine ⟨?_, ?_, rfl, by decide⟩
  · have hne : ¬ pm.TextPayload = "" := by
      intro h0
      rw [h0] at hd
      simp at hd
    simp [emitRecordE, hne, hd]
  · intro hn
    refine ⟨((padNum 9 pm.Timestamp.nsec).data.reverse.takeWhile
      (fun c => c = '0')).length, ?_⟩
    simp only [fmtFrac9, if_neg hn]
    have hsplit : ∀ s : String,
        s = dropTrailZeros s ++
          String.mk (List.replicate
            ((s.data.reverse.takeWhile (fun c => c = '0')).length) '0') := by
      intro s
      have h1 := List.takeWhile_append_dropWhile
        (p := fun c : Char => decide (c = '0')) (l := s.data.reverse)
      have h2 : s.data.reverse.takeWhile (fun c => c = '0') =
          List.replicate ((s.data.reverse.takeWhile (fun c => c = '0')).length) '0' := by
        apply List.eq_replicate_of_mem
        intro c hc
        have := List.mem_takeWhile_imp hc
        simpa using this
      have h4 : (s.data.reverse.takeWhile (fun c => c = '0')).reverse =
          List.replicate ((s.data.reverse.takeWhile (fun c => c = '0')).length) '0' := by
        conv_lhs => rw [h2]
        exact List.reverse_replicate _ _
      have h3 : s.data = (s.data.reverse.dropWhile (fun c => c = '0')).reverse ++
          List.replicate ((s.data.reverse.takeWhile (fun c => c = '0')).length) '0' := by
        conv_lhs => rw [← List.reverse_reverse s.data, ← h1]
        rw [List.reverse_append, h4]
      exact String.ext (by simpa [dropTrailZeros] using h3)
    conv_lhs => rw [hsplit (padNum 9 pm.Timestamp.nsec)]
    have happ : ∀ x y z : String, x ++ (y ++ z) = x ++ y ++ z := fun x y z =>
      (String.append_assoc x y z).symm
    rw [happ]

/-- C4 amended witness: a bracket-headed record is emitted with the
formatted timestamp and the trailing-zero relationship holds at a concrete
nanosecond count. -/
theorem header_line_format_witness :
    emitRecordE ⟨"[a]", ⟨60, 250000000, 0⟩⟩ =
      .ok ["[" ++ goTimeFormatPG ⟨60, 250000000, 0⟩ ++ "]: " ++ "[a]"] ∧
    ∃ k, "." ++ padNum 9 250000000 =
      fmtFrac9 250000000 ++ String.mk (List.replicate k '0') := by
  have h := header_line_format ⟨"[a]", ⟨60, 250000000, 0⟩⟩ "a]".data (by decide)
  exact ⟨h.1, h.2.1 (by decide)⟩

/-- C9: startup fails — error printed, exit code 1, no subscription attempt
— exactly when -project is empty, -subscription is empty, or the flush
interval is not positive; with valid required flags, a non-positive worker
count or a sub-second (but positive) flush interval only produce warnings
and execution continues to the subscription. -/
theorem flag_validation_iff (p s : String) (r f : Int) :
    ((∃ e, mainStart p s r f = .exitCode1BeforeSubscribe e) ↔
      (p = "" ∨ s = "" ∨ f < 1)) ∧
    (¬(p = "" ∨ s = "" ∨ f < 1) →
      ∃ w, mainStart p s r f = .subscribeAttempted w ∧
        ((r < 1 ∨ f < second) → w ≠ [])) := by
  constructor
  · constructor
    · intro ⟨e, he⟩
      by_contra hcon
      push_neg at hcon
      obtain ⟨hp, hs, hf⟩ := hcon
      unfold mainStart parseFlags at he
      rw [if_neg hp, if_neg hs, if_neg (by omega : ¬ f < 1)] at he
      by_cases hsub : f < second
      · rw [if_pos hsub] at he
        simp at he
      · rw [if_neg hsub] at he
        simp at he
    · intro h
      unfold mainStart parseFlags
      rcases h with h | h | h
      · exact ⟨_, by rw [if_pos h]⟩
      · by_cases hp : p = ""
        · exact ⟨_, by rw [if_pos hp]⟩
        · exact ⟨_, by rw [if_neg hp, if_pos h]⟩
      · by_cases hp : p = ""
        · exact ⟨_, by rw [if_pos hp]⟩
        · by_cases hs : s = ""
          · exact ⟨_, by rw [if_neg hp, if_pos hs]⟩
          · exact ⟨_, by rw [if_neg hp, if_neg hs, if_pos h]⟩
  · intro h
    push_neg at h
    obtain ⟨hp, hs, hf⟩ := h
    unfold mainStart parseFlags
    rw [if_neg hp, if_neg hs, if_neg (by omega : ¬ f < 1)]
    by_cases hsub : f < second
    · rw [if_pos hsub]
      exact ⟨_, rfl, fun _ => by simp⟩
    · rw [if_neg hsub]
      refine ⟨_, rfl, fun hw => ?_⟩
      rcases hw with hw | hw
      · simp [if_pos hw]
      · exact absurd hw hsub

/-- C9 witness: missing -project fails before subscribing; a sub-second
interval and a non-positive worker count still subscribe, with warnings. -/
theorem flag_validation_iff_witness :
    (∃ e, mainStart "" "sub" 4 second = .exitCode1BeforeSubscribe e) ∧
    (∃ w, mainStart "proj" "sub" 0 5 = .subscribeAttempted w ∧ w ≠ []) := by
  constructor
  · exact (flag_validation_iff "" "sub" 4 second).1.mpr (Or.inl rfl)
  · obtain ⟨w, hw, hne⟩ := (flag_validation_iff "proj" "sub" 0 5).2 (by
      push_neg
      refine ⟨by decide, by decide, by decide⟩)
    exact ⟨w, hw, hne (Or.inl (by decide))⟩

/-- C2 counterexample: the flush-time sort is NOT stable. In this batch the
records "[x]" (appended fourth) and "[y]" (appended seventh) carry equal
timestamps, yet the flush emits the "[y]" line before the "[x]" line —
sort.Slice (Go's unstable quickSort) reverses their arrival order, so the
claimed output (x's line first) is not produced. -/
theorem flush_sort_not_stable_cex :
    flushTickE
      [⟨"[p]", ⟨2, 0, 0⟩⟩, ⟨"[q]", ⟨3, 0, 0⟩⟩, ⟨"[r]", ⟨3, 0, 0⟩⟩,
       ⟨"[x]", ⟨1, 0, 0⟩⟩, ⟨"[s]", ⟨3, 0, 0⟩⟩, ⟨"[t]", ⟨3, 0, 0⟩⟩,
       ⟨"[y]", ⟨1, 0, 0⟩⟩] =
      .ok (["[1970-01-01 00:00:01 UTC]: [y]",
            "[1970-01-01 00:00:01 UTC]: [x]",
            "[1970-01-01 00:00:02 UTC]: [p]",
            "[1970-01-01 00:00:03 UTC]: [q]",
            "[1970-01-01 00:00:03 UTC]: [r]",
            "[1970-01-01 00:00:03 UTC]: [s]",
            "[1970-01-01 00:00:03 UTC]: [t]"], [], some 7) ∧
    (⟨"[x]", ⟨1, 0, 0⟩⟩ : ParsedMessage).Timestamp =
      (⟨"[y]", ⟨1, 0, 0⟩⟩ : ParsedMessage).Timestamp ∧
    ["[1970-01-01 00:00:01 UTC]: [y]", "[1970-01-01 00:00:01 UTC]: [x]"] ≠
      ["[1970-01-01 00:00:01 UTC]: [x]", "[1970-01-01 00:00:01 UTC]: [y]"] := by
  exact ⟨by decide, rfl, by decide⟩

/-- C2 (amended): the flush-time sort orders each batch by non-decreasing
timestamp: sort.Slice returns a permutation of the batch in which no later
record's timestamp is Before an earlier record's timestamp. (It is not
stable; equal-timestamp records may lose their arrival order, as the
counterexample shows.) -/
theorem flush_sort_ascending_permutation (buf : List ParsedMessage) :
    (sortMessages buf).Perm buf ∧
    List.Pairwise
      (fun x y => timeBefore y.Timestamp x.Timestamp = false)
      (sortMessages buf) := by
  refine ⟨sortMessages_perm buf, ?_⟩
  rw [List.pairwise_iff_getElem]
  intro i j h1 h2 hij
  have hlen : (sortMessages buf).length = buf.length := sortMessages_length buf
  have hs := sortMessages_sorted buf i j (Nat.zero_le i) hij (by omega)
  rw [elemD_eq_getElem _ j h2, elemD_eq_getElem _ i h1] at hs
  exact hs

/-- C8: flushing a non-empty batch of records with pairwise distinct
timestamps emits their lines in strictly ascending timestamp order: the
sorted batch is strictly ascending under Before, the flush succeeds, and
the emitted lines are the per-record emissions over that ascending order. -/
theorem distinct_timestamps_ascending_flush (buf : List ParsedMessage)
    (hne : buf ≠ [])
    (hd : List.Pairwise
      (fun x y => ¬(x.Timestamp.sec = y.Timestamp.sec ∧
        x.Timestamp.nsec = y.Timestamp.nsec)) buf) :
    List.Pairwise
      (fun x y => timeBefore x.Timestamp y.Timestamp = true)
      (sortMessages buf) ∧
    ∃ lines, flushTickE buf = .ok (lines, [], some buf.length) ∧
      emitAllE (sortMessages buf) = .ok lines := by
  constructor
  · have hsymm : Symmetric
        (fun x y : ParsedMessage => ¬(x.Timestamp.sec = y.Timestamp.sec ∧
          x.Timestamp.nsec = y.Timestamp.nsec)) := by
      intro x y h hc
      exact h ⟨hc.1.symm, hc.2.symm⟩
    have hd' := ((sortMessages_perm buf).pairwise_iff
      (fun {x y} h => hsymm h)).mpr hd
    rw [List.pairwise_iff_getElem] at hd' ⊢
    intro i j h1 h2 hij
    have hlen : (sortMessages buf).length = buf.length := sortMessages_length buf
    have hs := sortMessages_sorted buf i j (Nat.zero_le i) hij (by omega)
    have hne' := hd' i j h1 h2 hij
    rw [elemD_eq_getElem _ j h2, elemD_eq_getElem _ i h1] at hs
    simp only [pmLess, timeBefore, Bool.or_eq_false_iff, Bool.and_eq_false_iff,
      decide_eq_false_iff_not] at hs
    simp only [timeBefore, Bool.or_eq_true, Bool.and_eq_true,
      decide_eq_true_eq]
    omega
  · have hpos : 0 < buf.length := List.length_pos.mpr hne
    obtain ⟨lines, hl⟩ := emitAllE_isOk (sortMessages buf)
    refine ⟨lines, ?_, hl⟩
    unfold flushTickE
    rw [if_pos hpos, hl]

/-- C8 witness: the batch {t=2,"[b]"}, {t=1,"[a]"} is non-empty with
distinct timestamps; the theorem gives the strictly ascending sorted batch
and the successful flush, and concretely the flush emits the [a] line
before the [b] line. -/
theorem distinct_timestamps_ascending_flush_witness :
    ([⟨"[b]", ⟨2, 0, 0⟩⟩, ⟨"[a]", ⟨1, 0, 0⟩⟩] : List ParsedMessage) ≠ [] ∧
    List.Pairwise
      (fun x y : ParsedMessage => ¬(x.Timestamp.sec = y.Timestamp.sec ∧
        x.Timestamp.nsec = y.Timestamp.nsec))
      [⟨"[b]", ⟨2, 0, 0⟩⟩, ⟨"[a]", ⟨1, 0, 0⟩⟩] ∧
    (List.Pairwise
      (fun x y => timeBefore x.Timestamp y.Timestamp = true)
      (sortMessages [⟨"[b]", ⟨2, 0, 0⟩⟩, ⟨"[a]", ⟨1, 0, 0⟩⟩]) ∧
    ∃ lines, flushTickE [⟨"[b]", ⟨2, 0, 0⟩⟩, ⟨"[a]", ⟨1, 0, 0⟩⟩] =
        .ok (lines, [], some 2) ∧
      emitAllE (sortMessages [⟨"[b]", ⟨2, 0, 0⟩⟩, ⟨"[a]", ⟨1, 0, 0⟩⟩]) =
        .ok lines) ∧
    flushTickE [⟨"[b]", ⟨2, 0, 0⟩⟩, ⟨"[a]", ⟨1, 0, 0⟩⟩] =
      .ok (["[1970-01-01 00:00:01 UTC]: [a]",
            "[1970-01-01 00:00:02 UTC]: [b]"], [], some 2) := by
  have hd : List.Pairwise
      (fun x y : ParsedMessage => ¬(x.Timestamp.sec = y.Timestamp.sec ∧
        x.Timestamp.nsec = y.Timestamp.nsec))
      [⟨"[b]", ⟨2, 0, 0⟩⟩, ⟨"[a]", ⟨1, 0, 0⟩⟩] := by decide
  exact ⟨by decide, hd,
    distinct_timestamps_ascending_flush _ (by decide) hd, by decide⟩

end CloudSQLTail
